import Mathlib

/-!
Verification of the binary codec and helpers of the blender_stormworks_mesh
repository (src/data_struct.py, src/utils.py, src/import_stormworks_mesh.py,
src/export_stormworks_mesh.py).

Modelling conventions, chosen to mirror the Python source:

- A byte source (io.BufferedReader) is modelled as a list of natural numbers
  (the remaining bytes); each reading step returns either an error or a value
  together with the not-yet-consumed suffix.
- The error taxonomy follows the specification: struct.error raised by
  struct.unpack on a short read is TruncatedInputError (PErr.truncated);
  ValueError / Exception raised on an unexpected field value is
  FormatViolationError (PErr.formatViolation); UnicodeDecodeError raised by
  bytes.decode is DecodeError (PErr.decodeError).
- IEEE-754 float32 fields are modelled by their 4-byte little-endian bit
  patterns (a Nat below 2 to the 32).  The codec never computes with float
  values: it only moves their 4 bytes between the stream and the record, so
  the bit-pattern view is exact.  The constant SwVec3.one, compared against
  the trailing reserved vector of a SubMesh, is the bit pattern 0x3f800000 of
  the float 1.0 in each component.
- Python str values are modelled by their UTF-8 encodings (a byte list);
  bytes.decode checks validity (validUtf8) and is the identity on the bytes,
  str.encode is the identity.  This is faithful because UTF-8 encoding is a
  bijection between strings and valid byte sequences.
- struct.pack raises struct.error when an integer does not fit its format
  width, so the writers return Option: none models that exception.
- reader.read(k) never fails: at end of input it returns the available
  prefix.  readAvail models it; readExact models read-then-unpack, where a
  short read makes struct.unpack raise (truncated).
-/

inductive PErr where
  | truncated
  | formatViolation
  | decodeError
deriving DecidableEq

deriving instance DecidableEq for Except

abbrev Bytes := List Nat

def SrcReader (α : Type) : Type := Bytes → Except PErr (α × Bytes)

def pbind {α β : Type} (p : SrcReader α) (f : α → SrcReader β) : SrcReader β := fun bs =>
  match p bs with
  | .error e => .error e
  | .ok (a, rest) => f a rest

def ppure {α : Type} (a : α) : SrcReader α := fun bs => .ok (a, bs)

instance : Monad SrcReader where
  pure := ppure
  bind := pbind

def pfail {α : Type} (e : PErr) : SrcReader α := fun _ => .error e

/-- reader.read(n) followed by struct.unpack: a short read raises struct.error,
modelled as the truncated error. -/
def readExact (n : Nat) : SrcReader Bytes := fun bs =>
  if n ≤ bs.length then .ok (bs.take n, bs.drop n) else .error .truncated

/-- A bare reader.read(n): returns the available prefix, never fails. -/
def readAvail (n : Nat) : SrcReader Bytes := fun bs =>
  .ok (bs.take n, bs.drop n)

/-- Value of a little-endian byte sequence. -/
def leVal (bs : Bytes) : Nat := bs.foldr (fun b acc => b + 256 * acc) 0

/-- Little-endian bytes of a 16-bit value. -/
def le16 (n : Nat) : Bytes := [n % 256, n / 256]

/-- Little-endian bytes of a 32-bit value. -/
def le32 (n : Nat) : Bytes := [n % 256, n / 256 % 256, n / 65536 % 256, n / 16777216]

/-- struct.pack of format H: fails unless the value fits 16 bits. -/
def pack16 (n : Nat) : Option Bytes := if n < 65536 then some (le16 n) else none

/-- struct.pack of format I: fails unless the value fits 32 bits. -/
def pack32 (n : Nat) : Option Bytes := if n < 4294967296 then some (le32 n) else none

/-- struct.pack of format B: fails unless the value fits 8 bits. -/
def pack8 (n : Nat) : Option Bytes := if n < 256 then some [n] else none

/-- _read_ushort of the source: struct.unpack of a 2-byte field. -/
def read_ushort : SrcReader Nat := do
  let bs ← readExact 2
  pure (leVal bs)

/-- _read_uint of the source: struct.unpack of a 4-byte field. -/
def read_uint : SrcReader Nat := do
  let bs ← readExact 4
  pure (leVal bs)

/-- A single float32 field, read as its 4-byte bit pattern. -/
def read_f32 : SrcReader Nat := do
  let bs ← readExact 4
  pure (leVal bs)

/-- A signed 32-bit little-endian field (struct format i). -/
def read_int32 : SrcReader Int := do
  let bs ← readExact 4
  let n := leVal bs
  pure (if n < 2147483648 then (n : Int) else (n : Int) - 4294967296)

/-- A single unsigned byte (struct format B). -/
def read_u8 : SrcReader Nat := do
  let bs ← readExact 1
  pure (leVal bs)

/-- "if strict and x != expected: raise ValueError" with the condition already
evaluated: raises FormatViolationError when the condition holds. -/
def guardFV (b : Bool) : SrcReader Unit :=
  if b then pfail .formatViolation else pure ()

/-- "if strict and reader.read(4) != magic: raise ValueError".  Note the
short-circuit of the Python "and": when strict is false the 4 magic bytes are
never read.  When strict is true a short read still yields a byte string
different from the magic, hence a format violation, exactly as in Python. -/
def checkMagic (magic : Bytes) (strict : Bool) : SrcReader Unit :=
  if strict then do
    let m ← readAvail 4
    guardFV (m ≠ magic)
  else pure ()

/-- Reading n records in sequence (a Python for-loop over range(n) that
appends one parsed record per iteration). -/
def readN {α : Type} (p : SrcReader α) : Nat → SrcReader (List α)
  | 0 => pure []
  | n + 1 => do
    let a ← p
    let as ← readN p n
    pure (a :: as)

/-- Validity of a byte sequence as strict UTF-8 (what bytes.decode with the
utf-8 codec accepts): RFC 3629 ranges, no overlong forms, no surrogates. -/
def validUtf8 : Bytes → Bool
  | [] => true
  | b :: rest =>
    if b < 128 then validUtf8 rest
    else if 194 ≤ b ∧ b ≤ 223 then
      match rest with
      | c1 :: r => decide (128 ≤ c1 ∧ c1 ≤ 191) && validUtf8 r
      | [] => false
    else if 224 ≤ b ∧ b ≤ 239 then
      match rest with
      | c1 :: c2 :: r =>
        (if b = 224 then decide (160 ≤ c1 ∧ c1 ≤ 191)
         else if b = 237 then decide (128 ≤ c1 ∧ c1 ≤ 159)
         else decide (128 ≤ c1 ∧ c1 ≤ 191)) &&
        decide (128 ≤ c2 ∧ c2 ≤ 191) && validUtf8 r
      | _ => false
    else if 240 ≤ b ∧ b ≤ 244 then
      match rest with
      | c1 :: c2 :: c3 :: r =>
        (if b = 240 then decide (144 ≤ c1 ∧ c1 ≤ 191)
         else if b = 244 then decide (128 ≤ c1 ∧ c1 ≤ 143)
         else decide (128 ≤ c1 ∧ c1 ≤ 191)) &&
        decide (128 ≤ c2 ∧ c2 ≤ 191) && decide (128 ≤ c3 ∧ c3 ≤ 191) && validUtf8 r
      | _ => false
    else false

/-- _read_name of the source: uint16 length prefix, then reader.read(length)
(which silently returns fewer bytes at end of input) decoded as UTF-8. -/
def read_name : SrcReader Bytes := do
  let name_len ← read_ushort
  let bs ← readAvail name_len
  if validUtf8 bs then pure bs else pfail .decodeError

/-- Serialization of one list element after another (a for-loop of to_writer
calls); fails as soon as one element fails to pack. -/
def writeList {α : Type} (w : α → Option Bytes) : List α → Option Bytes
  | [] => some []
  | x :: xs => do
    let b ← w x
    let bsx ← writeList w xs
    pure (b ++ bsx)

/-! Geometric value records of src/data_struct.py.  Float fields carry the
4-byte little-endian bit pattern of the float32 value. -/

structure SwVec3 where
  x : Nat
  y : Nat
  z : Nat
deriving DecidableEq

/-- SwVec3.one(): the vector (1.0, 1.0, 1.0); 0x3f800000 is the float32 bit
pattern of 1.0. -/
def SwVec3.one : SwVec3 := ⟨1065353216, 1065353216, 1065353216⟩

def SwVec3.from_reader : SrcReader SwVec3 := do
  let x ← read_f32
  let y ← read_f32
  let z ← read_f32
  pure ⟨x, y, z⟩

def SwVec3.to_writer (v : SwVec3) : Option Bytes := do
  let bx ← pack32 v.x
  let by0 ← pack32 v.y
  let bz ← pack32 v.z
  pure (bx ++ by0 ++ bz)

structure SwColor where
  r : Nat
  g : Nat
  b : Nat
  a : Nat
deriving DecidableEq

def SwColor.from_reader : SrcReader SwColor := do
  let r ← read_u8
  let g ← read_u8
  let b ← read_u8
  let a ← read_u8
  pure ⟨r, g, b, a⟩

def SwColor.to_writer (c : SwColor) : Option Bytes := do
  let br ← pack8 c.r
  let bg ← pack8 c.g
  let bb ← pack8 c.b
  let ba ← pack8 c.a
  pure (br ++ bg ++ bb ++ ba)

structure SwQuaternion where
  x : Nat
  y : Nat
  z : Nat
  w : Nat
deriving DecidableEq

def SwQuaternion.from_reader : SrcReader SwQuaternion := do
  let x ← read_f32
  let y ← read_f32
  let z ← read_f32
  let w ← read_f32
  pure ⟨x, y, z, w⟩

structure SwMatrix3 where
  m : List Nat
deriving DecidableEq

def SwMatrix3.from_reader : SrcReader SwMatrix3 := do
  let m ← readN read_f32 9
  pure ⟨m⟩

structure MeshVertex where
  position : SwVec3
  color : SwColor
  normal : SwVec3
deriving DecidableEq

def MeshVertex.from_reader : SrcReader MeshVertex := do
  let position ← SwVec3.from_reader
  let color ← SwColor.from_reader
  let normal ← SwVec3.from_reader
  pure ⟨position, color, normal⟩

def MeshVertex.to_writer (v : MeshVertex) : Option Bytes := do
  let bp ← SwVec3.to_writer v.position
  let bc ← SwColor.to_writer v.color
  let bn ← SwVec3.to_writer v.normal
  pure (bp ++ bc ++ bn)

/-! The static mesh format (Mesh, SubMesh) of src/data_struct.py. -/

structure SubMesh where
  index_buffer_start : Nat
  index_buffer_length : Nat
  shader_id : Nat
  bounds_min : SwVec3
  bounds_max : SwVec3
  name : Bytes
deriving DecidableEq

/-- SubMesh.from_reader.  Note the short-circuit on the reserved field before
the name: "if strict and _read_ushort(reader) != 0" reads the 2-byte field
only when strict is true. -/
def SubMesh.from_reader (strict : Bool) : SrcReader SubMesh := do
  let index_buffer_start ← read_uint
  let index_buffer_length ← read_uint
  let h2 ← read_ushort
  let shader_id ← read_ushort
  guardFV (strict && h2 != 0)
  guardFV (strict && !(shader_id ≤ 3))
  let bounds_min ← SwVec3.from_reader
  let bounds_max ← SwVec3.from_reader
  (if strict then do
    let h6 ← read_ushort
    guardFV (h6 != 0)
  else pure ())
  let name ← read_name
  let h8 ← SwVec3.from_reader
  guardFV (strict && h8 != SwVec3.one)
  pure ⟨index_buffer_start, index_buffer_length, shader_id, bounds_min, bounds_max, name⟩

def SubMesh.to_writer (sm : SubMesh) : Option Bytes := do
  let b0 ← pack32 sm.index_buffer_start
  let b1 ← pack32 sm.index_buffer_length
  let b2 ← pack16 0
  let b3 ← pack16 sm.shader_id
  let bmin ← SwVec3.to_writer sm.bounds_min
  let bmax ← SwVec3.to_writer sm.bounds_max
  let b6 ← pack16 0
  let b7 ← pack16 sm.name.length
  let b8 ← SwVec3.to_writer SwVec3.one
  pure (b0 ++ b1 ++ b2 ++ b3 ++ bmin ++ bmax ++ b6 ++ b7 ++ sm.name ++ b8)

structure Mesh where
  vertices : List MeshVertex
  indices : List Nat
  submeshes : List SubMesh
deriving DecidableEq

def meshMagic : Bytes := [109, 101, 115, 104]

/-- The index-reading loop of Mesh.from_reader: each uint16 index is checked
against the vertex count in strict mode (the lower bound 0 <= v of the source
is automatic for an unsigned field). -/
def readIndices (strict : Bool) (vertex_count : Nat) : Nat → SrcReader (List Nat)
  | 0 => pure []
  | n + 1 => do
    let v ← read_ushort
    guardFV (strict && !(v < vertex_count))
    let rest ← readIndices strict vertex_count n
    pure (v :: rest)

/-- The part of Mesh.from_reader after the magic-tag line. -/
def Mesh.fromReaderBody (strict : Bool) : SrcReader Mesh := do
  let h0 ← read_ushort
  let h1 ← read_ushort
  let vertex_count ← read_ushort
  let h3 ← read_ushort
  let h4 ← read_ushort
  guardFV (strict && h0 != 7)
  guardFV (strict && h1 != 1)
  guardFV (strict && h3 != 19)
  guardFV (strict && h4 != 0)
  let vertices ← readN MeshVertex.from_reader vertex_count
  let index_count ← read_uint
  guardFV (strict && index_count % 3 != 0)
  let indices ← readIndices strict vertex_count index_count
  let submesh_count ← read_ushort
  let submeshes ← readN (SubMesh.from_reader strict) submesh_count
  let tail ← read_ushort
  guardFV (strict && tail != 0)
  pure ⟨vertices, indices, submeshes⟩

def Mesh.from_reader (strict : Bool) : SrcReader Mesh := do
  checkMagic meshMagic strict
  Mesh.fromReaderBody strict

def Mesh.to_writer (m : Mesh) : Option Bytes := do
  let bh0 ← pack16 7
  let bh1 ← pack16 1
  let bvc ← pack16 m.vertices.length
  let bh3 ← pack16 19
  let bh4 ← pack16 0
  let bverts ← writeList MeshVertex.to_writer m.vertices
  let bic ← pack32 m.indices.length
  let binds ← writeList pack16 m.indices
  let bsc ← pack16 m.submeshes.length
  let bsubs ← writeList SubMesh.to_writer m.submeshes
  let btail ← pack16 0
  pure (meshMagic ++ bh0 ++ bh1 ++ bvc ++ bh3 ++ bh4 ++ bverts ++ bic ++ binds ++ bsc ++ bsubs ++ btail)

/-! The physics mesh format (SubPhysMesh, PhysicsMesh) of src/data_struct.py.
The index-reading loop of SubPhysMesh.from_reader appends the raw result of
_read_unpack, which in Python is a 1-tuple of the integer, not the integer
itself; PyIdx distinguishes the two shapes a list entry can take. -/

inductive PyIdx where
  | int : Nat → PyIdx
  | tup1 : Nat → PyIdx
deriving DecidableEq

/-- struct.pack of format I applied to a list entry: on a 1-tuple Python
raises struct.error (required argument is not an integer), modelled none. -/
def PyIdx.pack : PyIdx → Option Bytes
  | .int n => pack32 n
  | .tup1 _ => none

structure SubPhysMesh where
  vertices : List SwVec3
  indices : List PyIdx
deriving DecidableEq

def SubPhysMesh.from_reader : SrcReader SubPhysMesh := do
  let vertex_count ← read_ushort
  let vertices ← readN SwVec3.from_reader vertex_count
  let index_count ← read_ushort
  let indices ← readN (do
    let bs ← readExact 4
    pure (PyIdx.tup1 (leVal bs))) index_count
  pure ⟨vertices, indices⟩

def SubPhysMesh.to_writer (s : SubPhysMesh) : Option Bytes := do
  let bvc ← pack16 s.vertices.length
  let bverts ← writeList SwVec3.to_writer s.vertices
  let bic ← pack16 s.indices.length
  let binds ← writeList PyIdx.pack s.indices
  pure (bvc ++ bverts ++ bic ++ binds)

structure PhysicsMesh where
  sub_phys_meshes : List SubPhysMesh
deriving DecidableEq

def physMagic : Bytes := [112, 104, 121, 115]

/-- The part of PhysicsMesh.from_reader after the magic-tag line. -/
def PhysicsMesh.fromReaderBody (strict : Bool) : SrcReader PhysicsMesh := do
  let h0 ← read_ushort
  let sub_phys_count ← read_ushort
  guardFV (strict && h0 != 2)
  let sub_phys_meshes ← readN SubPhysMesh.from_reader sub_phys_count
  pure ⟨sub_phys_meshes⟩

def PhysicsMesh.from_reader (strict : Bool) : SrcReader PhysicsMesh := do
  checkMagic physMagic strict
  PhysicsMesh.fromReaderBody strict

def PhysicsMesh.to_writer (pm : PhysicsMesh) : Option Bytes := do
  let bh0 ← pack16 2
  let bc ← pack16 pm.sub_phys_meshes.length
  let bsubs ← writeList SubPhysMesh.to_writer pm.sub_phys_meshes
  pure (physMagic ++ bh0 ++ bc ++ bsubs)

/-! The animation format of src/data_struct.py. -/

structure AnimVertex where
  position : SwVec3
  color : SwColor
  uv0 : Nat
  uv1 : Nat
  normal : SwVec3
  bone_index_0 : Nat
  bone_index_1 : Nat
  bone_weight_0 : Nat
  bone_weight_1 : Nat
deriving DecidableEq

def AnimVertex.from_reader : SrcReader AnimVertex := do
  let position ← SwVec3.from_reader
  let color ← SwColor.from_reader
  let uv0 ← read_f32
  let uv1 ← read_f32
  let normal ← SwVec3.from_reader
  let bone_index_0 ← read_f32
  let bone_index_1 ← read_f32
  let bone_weight_0 ← read_f32
  let bone_weight_1 ← read_f32
  pure ⟨position, color, uv0, uv1, normal, bone_index_0, bone_index_1, bone_weight_0, bone_weight_1⟩

structure AnimMesh where
  shader_id : Nat
  vertices : List AnimVertex
  indices : List Nat
deriving DecidableEq

/-- AnimMesh.from_reader.  The two byte-size divisibility checks are written
in the source without the strict guard of the neighbouring checks, so they
raise in both modes. -/
def AnimMesh.from_reader (strict : Bool) : SrcReader AnimMesh := do
  let h0 ← read_uint
  let h1 ← read_uint
  let h2 ← read_ushort
  guardFV (strict && h0 != 151)
  guardFV (strict && h2 != 0)
  let vertices_size ← read_uint
  guardFV (vertices_size % 52 != 0)
  let vertices ← readN AnimVertex.from_reader (vertices_size / 52)
  let indices_size ← read_uint
  guardFV (indices_size % 12 != 0)
  let indices ← readN read_uint (indices_size / 4)
  pure ⟨h1, vertices, indices⟩

structure Bone where
  name : Bytes
  rotation : SwMatrix3
  translation : SwVec3
  parent_index : Int
  child_indices : List Nat
deriving DecidableEq

def Bone.from_reader : SrcReader Bone := do
  let name ← read_name
  let rotation ← SwMatrix3.from_reader
  let translation ← SwVec3.from_reader
  let parent_index ← read_int32
  let n_children ← read_uint
  let child_indices ← readN read_uint n_children
  pure ⟨name, rotation, translation, parent_index, child_indices⟩

structure Pose where
  name : Bytes
  bone_transforms : List (SwMatrix3 × SwVec3)
deriving DecidableEq

def Pose.from_reader : SrcReader Pose := do
  let name ← read_name
  let n_bones ← read_uint
  let bone_transforms ← readN (do
    let rotation ← SwMatrix3.from_reader
    let translation ← SwVec3.from_reader
    pure (rotation, translation)) n_bones
  pure ⟨name, bone_transforms⟩

structure TranslationKeyframe where
  timestamp : Nat
  translation : SwVec3
deriving DecidableEq

def TranslationKeyframe.from_reader : SrcReader TranslationKeyframe := do
  let timestamp ← read_ushort
  let translation ← SwVec3.from_reader
  pure ⟨timestamp, translation⟩

structure RotationKeyframe where
  timestamp : Nat
  rotation : SwQuaternion
deriving DecidableEq

def RotationKeyframe.from_reader : SrcReader RotationKeyframe := do
  let timestamp ← read_ushort
  let rotation ← SwQuaternion.from_reader
  pure ⟨timestamp, rotation⟩

structure BoneAnimation where
  bone_index : Nat
  translations : List TranslationKeyframe
  rotations : List RotationKeyframe
deriving DecidableEq

def BoneAnimation.from_reader : SrcReader BoneAnimation := do
  let bone_index ← read_uint
  let n_translations ← read_uint
  let translations ← readN TranslationKeyframe.from_reader n_translations
  let n_rotations ← read_uint
  let rotations ← readN RotationKeyframe.from_reader n_rotations
  pure ⟨bone_index, translations, rotations⟩

structure Animation where
  name : Bytes
  bone_animations : List BoneAnimation
deriving DecidableEq

def Animation.from_reader : SrcReader Animation := do
  let name ← read_name
  let n_bones ← read_uint
  let bone_animations ← readN BoneAnimation.from_reader n_bones
  pure ⟨name, bone_animations⟩

structure Data3 where
  h0 : Nat
  m0 : SwMatrix3
  v0 : SwVec3
  p00 : Nat
  p01 : Nat
  m1 : SwMatrix3
  m2 : SwMatrix3
  p10 : Nat
  p11 : Nat
deriving DecidableEq

def Data3.from_reader : SrcReader Data3 := do
  let h0 ← read_uint
  let m0 ← SwMatrix3.from_reader
  let v0 ← SwVec3.from_reader
  let p00 ← read_f32
  let p01 ← read_f32
  let m1 ← SwMatrix3.from_reader
  let m2 ← SwMatrix3.from_reader
  let p10 ← read_f32
  let p11 ← read_f32
  pure ⟨h0, m0, v0, p00, p01, m1, m2, p10, p11⟩

structure Anim where
  meshes : List AnimMesh
  bones : List Bone
  poses : List Pose
  animations : List Animation
  data3s : List Data3
deriving DecidableEq

def animMagic : Bytes := [97, 110, 105, 109]

/-- The part of Anim.from_reader after the magic-tag line. -/
def Anim.fromReaderBody (strict : Bool) : SrcReader Anim := do
  let h0 ← read_uint
  let n_meshes ← read_uint
  guardFV (strict && h0 != 1)
  let meshes ← readN (AnimMesh.from_reader strict) n_meshes
  let n_bones ← read_uint
  let bones ← readN Bone.from_reader n_bones
  let n_poses ← read_uint
  let poses ← readN Pose.from_reader n_poses
  let n_animations ← read_uint
  let animations ← readN Animation.from_reader n_animations
  let n_data3s ← read_uint
  let data3s ← readN Data3.from_reader n_data3s
  pure ⟨meshes, bones, poses, animations, data3s⟩

def Anim.from_reader (strict : Bool) : SrcReader Anim := do
  checkMagic animMagic strict
  Anim.fromReaderBody strict

/-! validate_connected_tree of src/utils.py.  The nodes argument, a Python
dict mapping a bone index to the pair (parent_index, child_indices), is
modelled as an association list in dict iteration order.  A result of none
marks a state the Python function cannot reach from validate_connected_tree
(an exhausted fuel counter or a KeyError); the termination theorem shows the
function never returns it. -/

abbrev NodeMap := List (Nat × Int × List Nat)

def nodeFind (nodes : NodeMap) (k : Nat) : Option (Int × List Nat) :=
  (nodes.find? (fun p => p.1 = k)).map (fun p => p.2)

/-- The list comprehension over nodes.items() selecting ids whose
parent_index is -1. -/
def rootCandidates (nodes : NodeMap) : List Nat :=
  (nodes.filter (fun p => p.2.1 = -1)).map (fun p => p.1)

/-- The inner loop over one node's child list: first failure message wins. -/
def childCheck (nodes : NodeMap) (node_id : Nat) : List Nat → Option String
  | [] => none
  | c :: cs =>
    match nodeFind nodes c with
    | none => some "reference to nonexistent node"
    | some pc => if pc.1 ≠ (node_id : Int) then some "inconsistent parent-child relationships"
                 else childCheck nodes node_id cs

/-- The outer loop over nodes.items(): accumulates the edge count, returning
the first failure if any child reference is broken. -/
def edgeCheck (nodes : NodeMap) : List (Nat × Int × List Nat) → Except String Nat
  | [] => .ok 0
  | (node_id, _, children) :: rest =>
    match childCheck nodes node_id children with
    | some msg => .error msg
    | none =>
      match edgeCheck nodes rest with
      | .error msg => .error msg
      | .ok n => .ok (children.length + n)

/-- The depth-first traversal loop.  The Python list used as a stack pops
from its end; the model keeps the stack reversed, so the head is the element
Python pops and extending with a child list pushes it reversed. -/
def dfsLoop (nodes : NodeMap) : Nat → List Nat → List Nat → Option (Except String (List Nat))
  | 0, _, _ => none
  | _ + 1, visited, [] => some (.ok visited)
  | fuel + 1, visited, current :: stack =>
    if current ∈ visited then some (.error "not a tree")
    else
      match nodeFind nodes current with
      | none => none
      | some pc => dfsLoop nodes fuel (current :: visited) (pc.2.reverse ++ stack)

def validate_connected_tree (nodes : NodeMap) : Option (Bool × Option String) :=
  match rootCandidates nodes with
  | [root_id] =>
    match edgeCheck nodes nodes with
    | .error msg => some (false, some msg)
    | .ok edge_count =>
      if edge_count ≠ nodes.length - 1 then some (false, some "not a tree")
      else
        match dfsLoop nodes (nodes.length + 1) [] [root_id] with
        | none => none
        | some (.error msg) => some (false, some msg)
        | some (.ok visited) =>
          if visited.length ≠ nodes.length then some (false, some "not connected")
          else some (true, none)
  | _ => some (false, some "multiple roots")

/-! _resolve_bone_matrices of src/import_stormworks_mesh.py.  The transform
type and its composition are abstract parameters: the source composes
mathutils matrices with the matrix product, and no property of the product is
used by the algorithm.  The resolved dict is keyed by the Python value
bone_parent_indices[i], an int that can be negative, hence a map on Int.  A
result of none marks a state the Python function cannot reach under the
claim hypotheses (fuel exhaustion models an infinite loop, a missing list
index an IndexError). -/

def updMap {M : Type} (f : Int → Option M) (i : Int) (v : M) : Int → Option M :=
  fun j => if j = i then some v else f j

def resolveLoop {M : Type} (mul : M → M → M) (parents : List Int) (locals : List M) :
    Nat → (Int → Option M) → List Nat → Option (Int → Option M)
  | 0, _, _ => none
  | _ + 1, resolved, [] => some resolved
  | fuel + 1, resolved, i :: q =>
    match parents.get? i, locals.get? i with
    | some p, some m =>
      if p = -1 then resolveLoop mul parents locals fuel (updMap resolved (i : Int) m) q
      else
        match resolved p with
        | some mp => resolveLoop mul parents locals fuel (updMap resolved (i : Int) (mul mp m)) q
        | none => resolveLoop mul parents locals fuel resolved (q ++ [i])
    | _, _ => none

def resolveFuel (n : Nat) : Nat := (n + 1) * (n + 3) + 1

def resolve_bone_matrices {M : Type} (mul : M → M → M) (parents : List Int) (locals : List M) :
    Option (Int → Option M) :=
  resolveLoop mul parents locals (resolveFuel parents.length) (fun _ => none)
    (List.range parents.length)

/-- The composition of local transforms along the path from the root to bone
i (the root keeps its own local transform), defined with a fuel bound on the
path length. -/
def pathF {M : Type} (mul : M → M → M) (parents : List Int) (locals : List M) :
    Nat → Nat → Option M
  | 0, _ => none
  | fuel + 1, i =>
    match parents.get? i with
    | none => none
    | some p =>
      if p = -1 then locals.get? i
      else
        match pathF mul parents locals fuel p.toNat, locals.get? i with
        | some mp, some mi => some (mul mp mi)
        | _, _ => none

/-- The root-space transform of bone i: a path in an acyclic parent structure
over n bones visits at most n bones. -/
def boneGlobal {M : Type} (mul : M → M → M) (parents : List Int) (locals : List M)
    (i : Nat) : Option M :=
  pathF mul parents locals parents.length i

/-! _PolygonOptimizer and the packing part of save_mesh from
src/export_stormworks_mesh.py.  The three attributes of _PolygonOptimizer are
declared at class level with no initializer, so in Python they are a single
shared mutable state that survives across instances and across save_mesh
calls; the model threads that state explicitly, and a fresh process start
corresponds to polyInit.  The vertex type is an abstract parameter with
decidable equality (the source uses MeshVertex records as dict keys).
Sub-mesh bounds and names are not modelled: the bounds_min is None test that
decides whether a SubMesh record is appended is equivalent to the shader
group being empty of triangles. -/

structure PolyState (T : Type) where
  vertices : List T
  indices : List Nat
  vertex_index_map : List (T × Nat)
deriving DecidableEq

def polyInit (T : Type) : PolyState T := ⟨[], [], []⟩

def add_vertex {T : Type} [DecidableEq T] (s : PolyState T) (v : T) : PolyState T :=
  match (s.vertex_index_map.find? (fun p => p.1 = v)).map (fun p => p.2) with
  | some i => { s with indices := s.indices ++ [i] }
  | none =>
    let i := s.vertices.length
    { vertices := s.vertices ++ [v]
      indices := s.indices ++ [i]
      vertex_index_map := s.vertex_index_map ++ [(v, i)] }

def addTriangle {T : Type} [DecidableEq T] (s : PolyState T) (t : T × T × T) : PolyState T :=
  add_vertex (add_vertex (add_vertex s t.1) t.2.1) t.2.2

structure SubMeshOut where
  index_buffer_start : Nat
  index_buffer_length : Nat
  shader_id : Nat
deriving DecidableEq

structure MeshOut (T : Type) where
  vertices : List T
  indices : List Nat
  submeshes : List SubMeshOut
deriving DecidableEq

/-- The shader-id loop of save_mesh: groups lists the triangle tuples per
shader id in position; the _PolygonOptimizer state is received from the
caller because in Python it lives in class attributes. -/
def save_mesh_core {T : Type} [DecidableEq T] (groups : List (List (T × T × T)))
    (s0 : PolyState T) : MeshOut T × PolyState T :=
  let step := fun (acc : PolyState T × List SubMeshOut) (g : Nat × List (T × T × T)) =>
    let start := acc.1.indices.length
    let s1 := g.2.foldl addTriangle acc.1
    if g.2.isEmpty then (s1, acc.2)
    else (s1, acc.2 ++ [⟨start, 3 * g.2.length, g.1⟩])
  let out := groups.enum.foldl step (s0, [])
  (⟨out.1.vertices, out.1.indices, out.2⟩, out.1)

/-! Well-formedness of a Mesh value: the documented invariants under which
the round-trip property is claimed.  Counts fit their declared integer
widths, float fields are 32-bit patterns, colors are bytes, every index is
below the vertex count, the index count is a multiple of 3, shader ids are
in 0..3, sub-mesh ranges lie inside the index buffer, and names are valid
UTF-8 whose encoded length fits the uint16 length prefix. -/

def wfVec3 (v : SwVec3) : Prop :=
  v.x < 4294967296 ∧ v.y < 4294967296 ∧ v.z < 4294967296

instance (v : SwVec3) : Decidable (wfVec3 v) :=
  decidable_of_iff (v.x < 4294967296 ∧ v.y < 4294967296 ∧ v.z < 4294967296) Iff.rfl

def wfColor (c : SwColor) : Prop :=
  c.r < 256 ∧ c.g < 256 ∧ c.b < 256 ∧ c.a < 256

instance (c : SwColor) : Decidable (wfColor c) :=
  decidable_of_iff (c.r < 256 ∧ c.g < 256 ∧ c.b < 256 ∧ c.a < 256) Iff.rfl

def wfVertex (v : MeshVertex) : Prop :=
  wfVec3 v.position ∧ wfColor v.color ∧ wfVec3 v.normal

instance (v : MeshVertex) : Decidable (wfVertex v) :=
  decidable_of_iff (wfVec3 v.position ∧ wfColor v.color ∧ wfVec3 v.normal) Iff.rfl

def wfSubMesh (nIdx : Nat) (sm : SubMesh) : Prop :=
  sm.index_buffer_start < 4294967296 ∧ sm.index_buffer_length < 4294967296 ∧
  sm.shader_id ≤ 3 ∧ wfVec3 sm.bounds_min ∧ wfVec3 sm.bounds_max ∧
  validUtf8 sm.name = true ∧ sm.name.length < 65536 ∧
  sm.index_buffer_start + sm.index_buffer_length ≤ nIdx

instance (nIdx : Nat) (sm : SubMesh) : Decidable (wfSubMesh nIdx sm) :=
  decidable_of_iff (sm.index_buffer_start < 4294967296 ∧ sm.index_buffer_length < 4294967296 ∧
    sm.shader_id ≤ 3 ∧ wfVec3 sm.bounds_min ∧ wfVec3 sm.bounds_max ∧
    validUtf8 sm.name = true ∧ sm.name.length < 65536 ∧
    sm.index_buffer_start + sm.index_buffer_length ≤ nIdx) Iff.rfl

def wfMesh (m : Mesh) : Prop :=
  m.vertices.length < 65536 ∧ (∀ v ∈ m.vertices, wfVertex v) ∧
  m.indices.length < 4294967296 ∧ m.indices.length % 3 = 0 ∧
  (∀ i ∈ m.indices, i < m.vertices.length) ∧
  m.submeshes.length < 65536 ∧ (∀ sm ∈ m.submeshes, wfSubMesh m.indices.length sm)

instance (m : Mesh) : Decidable (wfMesh m) :=
  decidable_of_iff (m.vertices.length < 65536 ∧ (∀ v ∈ m.vertices, wfVertex v) ∧
    m.indices.length < 4294967296 ∧ m.indices.length % 3 = 0 ∧
    (∀ i ∈ m.indices, i < m.vertices.length) ∧
    m.submeshes.length < 65536 ∧ (∀ sm ∈ m.submeshes, wfSubMesh m.indices.length sm)) Iff.rfl

/-! Well-formedness of a PhysicsMesh value for the round-trip statement:
counts fit uint16, vertex floats are 32-bit patterns, and every stored index
entry is a plain integer fitting uint32 (what PhysicsMesh.to_writer can
emit). -/

def wfPyIdx (i : PyIdx) : Prop := ∃ n, i = PyIdx.int n ∧ n < 4294967296

instance (i : PyIdx) : Decidable (wfPyIdx i) :=
  match i with
  | .int n => decidable_of_iff (n < 4294967296)
      ⟨fun h => ⟨n, rfl, h⟩, fun ⟨m, hm, h⟩ => by cases hm; exact h⟩
  | .tup1 n => isFalse (fun ⟨m, hm, _⟩ => by cases hm)

def wfSubPhysMesh (s : SubPhysMesh) : Prop :=
  s.vertices.length < 65536 ∧ (∀ v ∈ s.vertices, wfVec3 v) ∧
  s.indices.length < 65536 ∧ (∀ i ∈ s.indices, wfPyIdx i)

instance (s : SubPhysMesh) : Decidable (wfSubPhysMesh s) :=
  decidable_of_iff (s.vertices.length < 65536 ∧ (∀ v ∈ s.vertices, wfVec3 v) ∧
    s.indices.length < 65536 ∧ (∀ i ∈ s.indices, wfPyIdx i)) Iff.rfl

def wfPhysicsMesh (pm : PhysicsMesh) : Prop :=
  pm.sub_phys_meshes.length < 65536 ∧ ∀ s ∈ pm.sub_phys_meshes, wfSubPhysMesh s

instance (pm : PhysicsMesh) : Decidable (wfPhysicsMesh pm) :=
  decidable_of_iff (pm.sub_phys_meshes.length < 65536 ∧
    ∀ s ∈ pm.sub_phys_meshes, wfSubPhysMesh s) Iff.rfl

/-- The mapping that the tuple-wrapping slip of SubPhysMesh.from_reader
applies to a stored index entry on a parse of serialized output. -/
def PyIdx.wrap : PyIdx → PyIdx
  | .int n => .tup1 n
  | .tup1 n => .tup1 n

/-- Acyclicity interface for the bone-resolution claim: every queue entry
must find its parent index inside the list, and a depth measure D strictly
decreases from a bone to its parent, which rules out cycles. -/
def parentOKb (parents : List Int) (D : Nat → Nat) (i : Nat) : Bool :=
  match parents.get? i with
  | none => true
  | some p => decide (p = -1) || (decide (0 ≤ p) && decide (p.toNat < parents.length)
      && decide (D p.toNat < D i))

/-- The error kinds a run on a cut-short buffer may surface away from the
magic tag: struct.error on a short fixed-width read (truncation), or
UnicodeDecodeError when a short string payload is not valid UTF-8. -/
def ClassifiedErr (e : PErr) : Prop := e = PErr.truncated ∨ e = PErr.decodeError

/-- The three facts about a reader that make truncation analysis
compositional: the rest of a successful run is never longer than the input;
cutting the input anywhere at or past the consumed region leaves the result
unchanged with the rest cut accordingly; and cutting the input strictly
inside the consumed region makes the run fail with a truncation or decode
error. -/
def GoodParser {α : Type} (p : SrcReader α) : Prop :=
  (∀ bs a mid, p bs = .ok (a, mid) → mid.length ≤ bs.length) ∧
  (∀ bs a mid, p bs = .ok (a, mid) → ∀ k, bs.length - mid.length ≤ k →
    p (bs.take k) = .ok (a, mid.take (k - (bs.length - mid.length)))) ∧
  (∀ bs a mid, p bs = .ok (a, mid) → ∀ k, k < bs.length - mid.length →
    ∃ e, p (bs.take k) = .error e ∧ ClassifiedErr e)

/-! Lemmas: unfolding the reader monad and running the primitives. -/

@[simp]
theorem bind_eq_pbind {α β : Type} (p : SrcReader α) (f : α → SrcReader β) :
    p >>= f = pbind p f := rfl

@[simp]
theorem pure_eq_ppure {α : Type} (a : α) : (pure a : SrcReader α) = ppure a := rfl

@[simp]
theorem ppure_run {α : Type} (a : α) (bs : Bytes) : ppure a bs = .ok (a, bs) := rfl

@[simp]
theorem pfail_run {α : Type} (e : PErr) (bs : Bytes) : pfail e bs = (.error e : Except PErr (α × Bytes)) := rfl

theorem pbind_run_ok {α β : Type} {p : SrcReader α} {bs r : Bytes} {a : α}
    (f : α → SrcReader β) (h : p bs = .ok (a, r)) : pbind p f bs = f a r := by
  unfold pbind; rw [h]

theorem pbind_run_err {α β : Type} {p : SrcReader α} {bs : Bytes} {e : PErr}
    (f : α → SrcReader β) (h : p bs = .error e) : pbind p f bs = .error e := by
  unfold pbind; rw [h]

theorem pbind_ok_iff {α β : Type} {p : SrcReader α} {f : α → SrcReader β} {bs r : Bytes}
    {b : β} : pbind p f bs = .ok (b, r) ↔
      ∃ a m, p bs = .ok (a, m) ∧ f a m = .ok (b, r) := by
  unfold pbind
  cases hp : p bs with
  | error e => simp [hp]
  | ok ar =>
    constructor
    · intro h; exact ⟨ar.1, ar.2, rfl, h⟩
    · rintro ⟨a, m, ham, h⟩
      obtain ⟨rfl, rfl⟩ : ar.1 = a ∧ ar.2 = m := by
        have := ham; cases ar; simp_all
      exact h

@[simp]
theorem readExact_append (xs rest : Bytes) :
    readExact xs.length (xs ++ rest) = .ok (xs, rest) := by
  unfold readExact
  rw [if_pos (by simp), List.take_left, List.drop_left]

@[simp]
theorem readAvail_append (xs rest : Bytes) :
    readAvail xs.length (xs ++ rest) = .ok (xs, rest) := by
  unfold readAvail
  rw [List.take_left, List.drop_left]

theorem le16_length (n : Nat) : (le16 n).length = 2 := rfl

theorem le32_length (n : Nat) : (le32 n).length = 4 := rfl

theorem leVal_le16 (n : Nat) : leVal (le16 n) = n := by
  simp [leVal, le16]; omega

theorem leVal_le32 (n : Nat) : leVal (le32 n) = n := by
  simp [leVal, le32]; omega

@[simp]
theorem read_ushort_le16 (n : Nat) (rest : Bytes) :
    read_ushort (le16 n ++ rest) = .ok (n, rest) := by
  show pbind (readExact 2) _ _ = _
  rw [show (2 : Nat) = (le16 n).length from rfl,
    pbind_run_ok _ (readExact_append (le16 n) rest)]
  simp [leVal_le16]

@[simp]
theorem read_uint_le32 (n : Nat) (rest : Bytes) :
    read_uint (le32 n ++ rest) = .ok (n, rest) := by
  show pbind (readExact 4) _ _ = _
  rw [show (4 : Nat) = (le32 n).length from rfl,
    pbind_run_ok _ (readExact_append (le32 n) rest)]
  simp [leVal_le32]

@[simp]
theorem read_f32_le32 (n : Nat) (rest : Bytes) :
    read_f32 (le32 n ++ rest) = .ok (n, rest) := by
  show pbind (readExact 4) _ _ = _
  rw [show (4 : Nat) = (le32 n).length from rfl,
    pbind_run_ok _ (readExact_append (le32 n) rest)]
  simp [leVal_le32]

@[simp]
theorem read_u8_cons (b : Nat) (rest : Bytes) :
    read_u8 (b :: rest) = .ok (b, rest) := by
  show pbind (readExact 1) _ _ = _
  rw [show ((b :: rest : Bytes)) = [b] ++ rest from rfl,
    show (1 : Nat) = ([b] : Bytes).length from rfl,
    pbind_run_ok _ (readExact_append [b] rest)]
  simp [leVal]

@[simp]
theorem guardFV_false : guardFV false = ppure () := rfl

theorem guardFV_true : guardFV true = pfail .formatViolation := rfl

theorem read_name_frame (name rest : Bytes) (hv : validUtf8 name = true) :
    read_name (le16 name.length ++ (name ++ rest)) = .ok (name, rest) := by
  show pbind read_ushort _ _ = _
  rw [pbind_run_ok _ (read_ushort_le16 name.length (name ++ rest))]
  show pbind (readAvail name.length) _ _ = _
  rw [pbind_run_ok _ (readAvail_append name rest)]
  simp [hv]

/-! Running rules in bind form: each rule consumes one serialized field from
the front of the buffer.  Buffers are kept in right-associated append form. -/

@[simp]
theorem pbind_ppure_run {α β : Type} (a : α) (f : α → SrcReader β) (bs : Bytes) :
    pbind (ppure a) f bs = f a bs := rfl

@[simp]
theorem pbind_pfail_run {α β : Type} (e : PErr) (f : α → SrcReader β) (bs : Bytes) :
    pbind (pfail e) f bs = .error e := rfl

@[simp]
theorem pbind_guardFV_run {β : Type} (c : Bool) (f : Unit → SrcReader β) (bs : Bytes) :
    pbind (guardFV c) f bs = if c then .error .formatViolation else f () bs := by
  cases c <;> rfl

@[simp]
theorem pbind_read_ushort_run {β : Type} (n : Nat) (f : Nat → SrcReader β) (rest : Bytes) :
    pbind read_ushort f (le16 n ++ rest) = f n rest :=
  pbind_run_ok f (read_ushort_le16 n rest)

@[simp]
theorem pbind_read_uint_run {β : Type} (n : Nat) (f : Nat → SrcReader β) (rest : Bytes) :
    pbind read_uint f (le32 n ++ rest) = f n rest :=
  pbind_run_ok f (read_uint_le32 n rest)

@[simp]
theorem pbind_read_f32_run {β : Type} (n : Nat) (f : Nat → SrcReader β) (rest : Bytes) :
    pbind read_f32 f (le32 n ++ rest) = f n rest :=
  pbind_run_ok f (read_f32_le32 n rest)

@[simp]
theorem pbind_read_u8_run {β : Type} (b : Nat) (f : Nat → SrcReader β) (rest : Bytes) :
    pbind read_u8 f (b :: rest) = f b rest :=
  pbind_run_ok f (read_u8_cons b rest)

theorem pbind_read_name_run {β : Type} {name : Bytes} (hv : validUtf8 name = true)
    (f : Bytes → SrcReader β) (rest : Bytes) :
    pbind read_name f (le16 name.length ++ (name ++ rest)) = f name rest :=
  pbind_run_ok f (read_name_frame name rest hv)

@[simp]
theorem pbind_checkMagic_false_run {β : Type} (magic : Bytes) (f : Unit → SrcReader β)
    (bs : Bytes) : pbind (checkMagic magic false) f bs = f () bs := rfl

theorem checkMagic_true_run (magic rest : Bytes) (hl : magic.length = 4) :
    checkMagic magic true (magic ++ rest) = .ok ((), rest) := by
  have hc : checkMagic magic true = pbind (readAvail 4) (fun m => guardFV (decide (m ≠ magic))) := rfl
  rw [hc, ← hl, pbind_run_ok _ (readAvail_append magic rest)]
  simp [guardFV]

@[simp]
theorem pbind_meshMagic_run {β : Type} (f : Unit → SrcReader β) (rest : Bytes) :
    pbind (checkMagic meshMagic true) f (meshMagic ++ rest) = f () rest :=
  pbind_run_ok f (checkMagic_true_run meshMagic rest rfl)

@[simp]
theorem pbind_physMagic_run {β : Type} (f : Unit → SrcReader β) (rest : Bytes) :
    pbind (checkMagic physMagic true) f (physMagic ++ rest) = f () rest :=
  pbind_run_ok f (checkMagic_true_run physMagic rest rfl)

@[simp]
theorem pbind_animMagic_run {β : Type} (f : Unit → SrcReader β) (rest : Bytes) :
    pbind (checkMagic animMagic true) f (animMagic ++ rest) = f () rest :=
  pbind_run_ok f (checkMagic_true_run animMagic rest rfl)

theorem SwVec3_from_reader_frame (x y z : Nat) (rest : Bytes) :
    SwVec3.from_reader (le32 x ++ (le32 y ++ (le32 z ++ rest))) = .ok (⟨x, y, z⟩, rest) := by
  simp only [SwVec3.from_reader, bind_eq_pbind, pure_eq_ppure, pbind_read_f32_run, ppure_run]

@[simp]
theorem pbind_vec3_run {β : Type} (x y z : Nat) (f : SwVec3 → SrcReader β) (rest : Bytes) :
    pbind SwVec3.from_reader f (le32 x ++ (le32 y ++ (le32 z ++ rest))) = f ⟨x, y, z⟩ rest :=
  pbind_run_ok f (SwVec3_from_reader_frame x y z rest)

theorem SwColor_from_reader_frame (r g b a : Nat) (rest : Bytes) :
    SwColor.from_reader (r :: g :: b :: a :: rest) = .ok (⟨r, g, b, a⟩, rest) := by
  simp only [SwColor.from_reader, bind_eq_pbind, pure_eq_ppure, pbind_read_u8_run, ppure_run]

@[simp]
theorem pbind_color_run {β : Type} (r g b a : Nat) (f : SwColor → SrcReader β) (rest : Bytes) :
    pbind SwColor.from_reader f (r :: g :: b :: a :: rest) = f ⟨r, g, b, a⟩ rest :=
  pbind_run_ok f (SwColor_from_reader_frame r g b a rest)

theorem MeshVertex_from_reader_frame (v : MeshVertex) (rest : Bytes) :
    MeshVertex.from_reader (le32 v.position.x ++ (le32 v.position.y ++ (le32 v.position.z ++
      (v.color.r :: v.color.g :: v.color.b :: v.color.a ::
      (le32 v.normal.x ++ (le32 v.normal.y ++ (le32 v.normal.z ++ rest))))))) =
        .ok (v, rest) := by
  simp only [MeshVertex.from_reader, bind_eq_pbind, pure_eq_ppure, pbind_vec3_run,
    pbind_color_run, ppure_run]

@[simp]
theorem pbind_vertex_run {β : Type} (v : MeshVertex) (f : MeshVertex → SrcReader β)
    (rest : Bytes) :
    pbind MeshVertex.from_reader f (le32 v.position.x ++ (le32 v.position.y ++ (le32 v.position.z ++
      (v.color.r :: v.color.g :: v.color.b :: v.color.a ::
      (le32 v.normal.x ++ (le32 v.normal.y ++ (le32 v.normal.z ++ rest))))))) = f v rest :=
  pbind_run_ok f (MeshVertex_from_reader_frame v rest)

theorem pbind_assoc {α β γ : Type} (p : SrcReader α) (g : α → SrcReader β)
    (f : β → SrcReader γ) (bs : Bytes) :
    pbind (pbind p g) f bs = pbind p (fun a => pbind (g a) f) bs := by
  unfold pbind
  cases p bs with
  | error e => rfl
  | ok ar => rfl

theorem pack16_of_lt {n : Nat} (h : n < 65536) : pack16 n = some (le16 n) := by
  simp [pack16, h]

theorem pack32_of_lt {n : Nat} (h : n < 4294967296) : pack32 n = some (le32 n) := by
  simp [pack32, h]

theorem pack8_of_lt {n : Nat} (h : n < 256) : pack8 n = some [n] := by
  simp [pack8, h]

/-! Round-trip of each record serializer against its reader, stated with an
arbitrary continuation and an arbitrary trailing buffer so that the pieces
compose. -/

theorem SwVec3_rt (v : SwVec3) (h : wfVec3 v) :
    ∃ b, v.to_writer = some b ∧
      ∀ {β : Type} (f : SwVec3 → SrcReader β) (rest : Bytes), pbind SwVec3.from_reader f (b ++ rest) = f v rest := by
  obtain ⟨h1, h2, h3⟩ := h
  refine ⟨le32 v.x ++ (le32 v.y ++ le32 v.z), ?_, ?_⟩
  · simp [SwVec3.to_writer, pack32_of_lt, h1, h2, h3]
  · intro β f rest
    simp only [List.append_assoc, pbind_vec3_run]

theorem SwColor_rt (c : SwColor) (h : wfColor c) :
    ∃ b, c.to_writer = some b ∧
      ∀ {β : Type} (f : SwColor → SrcReader β) (rest : Bytes), pbind SwColor.from_reader f (b ++ rest) = f c rest := by
  obtain ⟨h1, h2, h3, h4⟩ := h
  refine ⟨[c.r, c.g, c.b, c.a], ?_, ?_⟩
  · simp [SwColor.to_writer, pack8_of_lt, h1, h2, h3, h4]
  · intro β f rest
    simp only [List.cons_append, List.nil_append, pbind_color_run]

theorem MeshVertex_rt (v : MeshVertex) (h : wfVertex v) :
    ∃ b, v.to_writer = some b ∧
      ∀ {β : Type} (f : MeshVertex → SrcReader β) (rest : Bytes), pbind MeshVertex.from_reader f (b ++ rest) = f v rest := by
  obtain ⟨hp, hc, hn⟩ := h
  obtain ⟨bp, hbp, hpp⟩ := SwVec3_rt v.position hp
  obtain ⟨bc, hbc, hcp⟩ := SwColor_rt v.color hc
  obtain ⟨bn, hbn, hnp⟩ := SwVec3_rt v.normal hn
  refine ⟨bp ++ (bc ++ bn), ?_, ?_⟩
  · simp [MeshVertex.to_writer, hbp, hbc, hbn]
  · intro β f rest
    simp only [MeshVertex.from_reader, bind_eq_pbind, pure_eq_ppure, pbind_assoc,
      List.append_assoc]
    rw [hpp, pbind_assoc, hcp, pbind_assoc, hnp]
    rfl

/-- Round-trip of a whole list of records through writeList and readN, given
the round-trip of each element. -/
theorem writeList_readN_rt {α : Type} {w : α → Option Bytes} {p : SrcReader α} (l : List α)
    (hx : ∀ x ∈ l, ∃ b, w x = some b ∧
      ∀ {β : Type} (f : α → SrcReader β) (rest : Bytes), pbind p f (b ++ rest) = f x rest) :
    ∃ B, writeList w l = some B ∧
      ∀ {β : Type} (f : List α → SrcReader β) (rest : Bytes),
        pbind (readN p l.length) f (B ++ rest) = f l rest := by
  induction l with
  | nil =>
    refine ⟨[], rfl, ?_⟩
    intro β f rest
    simp only [List.length_nil, readN, pure_eq_ppure, List.nil_append, pbind_ppure_run]
  | cons x xs ih =>
    obtain ⟨b, hb, hbp⟩ := hx x (List.mem_cons_self x xs)
    obtain ⟨B, hB, hBp⟩ := ih (fun y hy => hx y (List.mem_cons_of_mem x hy))
    refine ⟨b ++ B, ?_, ?_⟩
    · simp [writeList, hb, hB]
    · intro β f rest
      simp only [List.length_cons, readN, bind_eq_pbind, pure_eq_ppure, pbind_assoc,
        List.append_assoc]
      rw [hbp, pbind_assoc, hBp]
      rfl

/-- Round-trip of the index list through its strict bounds-checking loop. -/
theorem writeIndices_rt (vc : Nat) (l : List Nat) (hv : ∀ v ∈ l, v < vc)
    (hvc : vc ≤ 65536) :
    ∃ B, writeList pack16 l = some B ∧
      ∀ {β : Type} (f : List Nat → SrcReader β) (rest : Bytes),
        pbind (readIndices true vc l.length) f (B ++ rest) = f l rest := by
  induction l with
  | nil =>
    refine ⟨[], rfl, ?_⟩
    intro β f rest
    simp only [List.length_nil, readIndices, pure_eq_ppure, List.nil_append, pbind_ppure_run]
  | cons v vs ih =>
    have hvlt : v < vc := hv v (List.mem_cons_self v vs)
    obtain ⟨B, hB, hBp⟩ := ih (fun y hy => hv y (List.mem_cons_of_mem v hy))
    refine ⟨le16 v ++ B, ?_, ?_⟩
    · simp [writeList, pack16_of_lt (Nat.lt_of_lt_of_le hvlt hvc), hB]
    · intro β f rest
      simp only [List.length_cons, readIndices, bind_eq_pbind, pure_eq_ppure, pbind_assoc,
        List.append_assoc, pbind_read_ushort_run, pbind_guardFV_run, hvlt,
        decide_True, Bool.not_true, Bool.and_false]
      rw [if_neg Bool.false_ne_true, hBp]
      rfl

theorem SubMesh_rt (nIdx : Nat) (sm : SubMesh) (h : wfSubMesh nIdx sm) :
    ∃ b, sm.to_writer = some b ∧
      ∀ {β : Type} (f : SubMesh → SrcReader β) (rest : Bytes),
        pbind (SubMesh.from_reader true) f (b ++ rest) = f sm rest := by
  obtain ⟨hs, hl, hsh, hmin, hmax, hnm, hnl, _⟩ := h
  obtain ⟨bmin, hbmin, hminp⟩ := SwVec3_rt sm.bounds_min hmin
  obtain ⟨bmax, hbmax, hmaxp⟩ := SwVec3_rt sm.bounds_max hmax
  obtain ⟨bone, hbone, honep⟩ := SwVec3_rt SwVec3.one (by refine ⟨?_, ?_, ?_⟩ <;> decide)
  refine ⟨le32 sm.index_buffer_start ++ (le32 sm.index_buffer_length ++ (le16 0 ++
    (le16 sm.shader_id ++ (bmin ++ (bmax ++ (le16 0 ++ (le16 sm.name.length ++
    (sm.name ++ bone)))))))), ?_, ?_⟩
  · simp [SubMesh.to_writer, pack32_of_lt hs, pack32_of_lt hl,
      pack16_of_lt (show sm.shader_id < 65536 by omega), pack16_of_lt (show (0:Nat) < 65536 by omega),
      pack16_of_lt hnl, hbmin, hbmax, hbone]
  · intro β f rest
    have hshb : decide (sm.shader_id ≤ 3) = true := decide_eq_true hsh
    simp only [SubMesh.from_reader, bind_eq_pbind, pure_eq_ppure, List.append_assoc,
      pbind_assoc, pbind_read_uint_run, pbind_read_ushort_run, pbind_guardFV_run,
      pbind_ppure_run, hminp, hmaxp, honep, pbind_read_name_run hnm, hshb,
      Bool.not_true, Bool.and_false, Bool.true_and, bne_self_eq_false, reduceIte]
    simp only [Bool.false_eq_true, if_false]

theorem pbind_ppure_right {α : Type} (p : SrcReader α) (bs : Bytes) :
    pbind p (fun a => ppure a) bs = p bs := by
  unfold pbind ppure
  cases p bs with
  | error e => rfl
  | ok ar => rfl

theorem Mesh_rt (m : Mesh) (h : wfMesh m) :
    ∃ bs, Mesh.to_writer m = some bs ∧
      ∀ {β : Type} (f : Mesh → SrcReader β) (rest : Bytes),
        pbind (Mesh.from_reader true) f (bs ++ rest) = f m rest := by
  obtain ⟨hvc, hverts, hic, h3, hidx, hsc, hsubs⟩ := h
  obtain ⟨Bv, hBv, hBvp⟩ := writeList_readN_rt m.vertices
    (fun v hv => MeshVertex_rt v (hverts v hv))
  obtain ⟨Bi, hBi, hBip⟩ := writeIndices_rt m.vertices.length m.indices hidx
    (Nat.le_of_lt hvc)
  obtain ⟨Bs, hBs, hBsp⟩ := writeList_readN_rt m.submeshes
    (fun sm hsm => SubMesh_rt m.indices.length sm (hsubs sm hsm))
  refine ⟨meshMagic ++ (le16 7 ++ (le16 1 ++ (le16 m.vertices.length ++ (le16 19 ++
    (le16 0 ++ (Bv ++ (le32 m.indices.length ++ (Bi ++ (le16 m.submeshes.length ++
    (Bs ++ le16 0)))))))))), ?_, ?_⟩
  · simp [Mesh.to_writer, pack16_of_lt hvc, pack32_of_lt hic, pack16_of_lt hsc,
      pack16_of_lt (show (7:Nat) < 65536 by omega), pack16_of_lt (show (1:Nat) < 65536 by omega),
      pack16_of_lt (show (19:Nat) < 65536 by omega), pack16_of_lt (show (0:Nat) < 65536 by omega),
      hBv, hBi, hBs]
  · intro β f rest
    have h3b : ((m.indices.length % 3) != 0) = false := by simp [h3]
    simp only [Mesh.from_reader, Mesh.fromReaderBody, bind_eq_pbind, pure_eq_ppure,
      List.append_assoc, pbind_assoc, pbind_meshMagic_run, pbind_read_ushort_run,
      pbind_read_uint_run, pbind_guardFV_run, pbind_ppure_run, hBvp, hBip, hBsp, h3b,
      Bool.not_true, Bool.and_false, Bool.true_and, bne_self_eq_false, reduceIte]
    simp only [Bool.false_eq_true, if_false]

/-- Claim C1.  Round-trip identity for the static mesh format: for every Mesh
value satisfying the documented invariants (wfMesh), serializing in canonical
form and re-parsing in strict mode returns the same value, with the whole
buffer consumed. -/
theorem mesh_roundtrip_identity (m : Mesh) (h : wfMesh m) :
    ∃ bs, Mesh.to_writer m = some bs ∧ Mesh.from_reader true bs = .ok (m, []) := by
  obtain ⟨bs, hw, hp⟩ := Mesh_rt m h
  refine ⟨bs, hw, ?_⟩
  have := hp (fun a => ppure a) []
  rw [List.append_nil, pbind_ppure_right] at this
  rw [this]
  rfl

/-- Witness for C1: the concrete one-vertex, one-triangle mesh of the
specification round-trips. -/
theorem mesh_roundtrip_identity_witness :
    wfMesh ⟨[⟨⟨0, 0, 0⟩, ⟨255, 0, 0, 255⟩, ⟨0, 0, 1065353216⟩⟩], [0, 0, 0], []⟩ ∧
    ∃ bs, Mesh.to_writer ⟨[⟨⟨0, 0, 0⟩, ⟨255, 0, 0, 255⟩, ⟨0, 0, 1065353216⟩⟩], [0, 0, 0], []⟩ = some bs ∧
      Mesh.from_reader true bs =
        .ok (⟨[⟨⟨0, 0, 0⟩, ⟨255, 0, 0, 255⟩, ⟨0, 0, 1065353216⟩⟩], [0, 0, 0], []⟩, []) :=
  ⟨by decide, mesh_roundtrip_identity _ (by decide)⟩

/-- Variant of the list round-trip where parsing returns a transformed image
of each written element. -/
theorem writeList_readN_map_rt {α : Type} (w : α → Option Bytes) (p : SrcReader α)
    (g : α → α) (l : List α)
    (hx : ∀ x ∈ l, ∃ b, w x = some b ∧
      ∀ {β : Type} (f : α → SrcReader β) (rest : Bytes), pbind p f (b ++ rest) = f (g x) rest) :
    ∃ B, writeList w l = some B ∧
      ∀ {β : Type} (f : List α → SrcReader β) (rest : Bytes),
        pbind (readN p l.length) f (B ++ rest) = f (l.map g) rest := by
  induction l with
  | nil =>
    refine ⟨[], rfl, ?_⟩
    intro β f rest
    simp only [List.length_nil, readN, pure_eq_ppure, List.nil_append, pbind_ppure_run,
      List.map_nil]
  | cons x xs ih =>
    obtain ⟨b, hb, hbp⟩ := hx x (List.mem_cons_self x xs)
    obtain ⟨B, hB, hBp⟩ := ih (fun y hy => hx y (List.mem_cons_of_mem x hy))
    refine ⟨b ++ B, ?_, ?_⟩
    · simp [writeList, hb, hB]
    · intro β f rest
      simp only [List.length_cons, readN, bind_eq_pbind, pure_eq_ppure, pbind_assoc,
        List.append_assoc, List.map_cons]
      rw [hbp, pbind_assoc, hBp]
      rfl

theorem tupIdx_read_frame (n : Nat) (rest : Bytes) :
    pbind (pbind (readExact 4) (fun bs => ppure (PyIdx.tup1 (leVal bs))))
      (fun i => ppure i) (le32 n ++ rest) = ppure (PyIdx.tup1 n) rest := by
  rw [pbind_assoc]
  rw [show (4 : Nat) = (le32 n).length from rfl,
    pbind_run_ok _ (readExact_append (le32 n) rest)]
  simp [leVal_le32]

theorem SubPhysMesh_rt (s : SubPhysMesh) (h : wfSubPhysMesh s) :
    ∃ b, s.to_writer = some b ∧
      ∀ {β : Type} (f : SubPhysMesh → SrcReader β) (rest : Bytes),
        pbind SubPhysMesh.from_reader f (b ++ rest) =
          f ⟨s.vertices, s.indices.map PyIdx.wrap⟩ rest := by
  obtain ⟨hvl, hverts, hil, hinds⟩ := h
  obtain ⟨Bv, hBv, hBvp⟩ := writeList_readN_rt s.vertices
    (fun v hv => SwVec3_rt v (hverts v hv))
  obtain ⟨Bi, hBi, hBip⟩ := writeList_readN_map_rt PyIdx.pack
    (pbind (readExact 4) (fun bs => ppure (PyIdx.tup1 (leVal bs)))) PyIdx.wrap s.indices (by
    intro x hx
    obtain ⟨n, rfl, hn⟩ := hinds x hx
    refine ⟨le32 n, ?_, ?_⟩
    · simp [PyIdx.pack, pack32_of_lt hn]
    · intro β f rest
      have h4 : (4 : Nat) = (le32 n).length := rfl
      rw [h4, pbind_assoc, pbind_run_ok _ (readExact_append (le32 n) rest)]
      simp [leVal_le32, PyIdx.wrap])
  refine ⟨le16 s.vertices.length ++ (Bv ++ (le16 s.indices.length ++ Bi)), ?_, ?_⟩
  · simp [SubPhysMesh.to_writer, pack16_of_lt hvl, pack16_of_lt hil, hBv, hBi]
  · intro β f rest
    simp only [SubPhysMesh.from_reader, bind_eq_pbind, pure_eq_ppure, List.append_assoc,
      pbind_assoc, pbind_read_ushort_run, pbind_ppure_run, hBvp, hBip]

/-- The image of a PhysicsMesh under the tuple-wrapping slip of
SubPhysMesh.from_reader. -/
theorem phys_rt (pm : PhysicsMesh) (h : wfPhysicsMesh pm) :
    ∃ bs, PhysicsMesh.to_writer pm = some bs ∧
      PhysicsMesh.from_reader true bs =
        .ok (⟨pm.sub_phys_meshes.map (fun s => ⟨s.vertices, s.indices.map PyIdx.wrap⟩)⟩, []) := by
  obtain ⟨hl, hsubs⟩ := h
  obtain ⟨Bs, hBs, hBsp⟩ := writeList_readN_map_rt SubPhysMesh.to_writer
    SubPhysMesh.from_reader
    (fun s => (⟨s.vertices, s.indices.map PyIdx.wrap⟩ : SubPhysMesh)) pm.sub_phys_meshes
    (fun s hs => SubPhysMesh_rt s (hsubs s hs))
  refine ⟨physMagic ++ (le16 2 ++ (le16 pm.sub_phys_meshes.length ++ Bs)), ?_, ?_⟩
  · simp [PhysicsMesh.to_writer, pack16_of_lt hl,
      pack16_of_lt (show (2:Nat) < 65536 by omega), hBs]
  · have frame : ∀ {β : Type} (f : PhysicsMesh → SrcReader β) (rest : Bytes),
        pbind (PhysicsMesh.from_reader true) f
          ((physMagic ++ (le16 2 ++ (le16 pm.sub_phys_meshes.length ++ Bs))) ++ rest) =
        f ⟨pm.sub_phys_meshes.map (fun s => ⟨s.vertices, s.indices.map PyIdx.wrap⟩)⟩ rest := by
      intro β f rest
      simp only [PhysicsMesh.from_reader, PhysicsMesh.fromReaderBody, bind_eq_pbind,
        pure_eq_ppure, List.append_assoc, pbind_assoc, pbind_physMagic_run,
        pbind_read_ushort_run, pbind_guardFV_run, pbind_ppure_run, hBsp,
        Bool.true_and, bne_self_eq_false, reduceIte]
      simp only [Bool.false_eq_true, if_false]
    have := frame (fun a => ppure a) []
    rw [List.append_nil, pbind_ppure_right] at this
    rw [this]
    rfl

/-- Claim C2 (code bug).  The physics round-trip does not preserve the index
entries as integers: _read_unpack returns a 1-tuple and
SubPhysMesh.from_reader appends it without taking its first component, so a
strict parse of serialized output returns every index wrapped in a tuple,
and the result is not structurally equal to the input.  Vertices and counts
are preserved.  Evaluated at the failing input
PhysicsMesh([SubPhysMesh(vertices=[], indices=[0])]). -/
theorem physics_roundtrip_wraps_indices :
    (∀ pm : PhysicsMesh, wfPhysicsMesh pm → ∃ bs, PhysicsMesh.to_writer pm = some bs ∧
      PhysicsMesh.from_reader true bs =
        .ok (⟨pm.sub_phys_meshes.map (fun s => ⟨s.vertices, s.indices.map PyIdx.wrap⟩)⟩, [])) ∧
    PhysicsMesh.to_writer ⟨[⟨[], [.int 0]⟩]⟩ =
      some [112, 104, 121, 115, 2, 0, 1, 0, 0, 0, 1, 0, 0, 0, 0, 0] ∧
    PhysicsMesh.from_reader true [112, 104, 121, 115, 2, 0, 1, 0, 0, 0, 1, 0, 0, 0, 0, 0] =
      .ok (⟨[⟨[], [.tup1 0]⟩]⟩, []) ∧
    (⟨[⟨[], [.tup1 0]⟩]⟩ : PhysicsMesh) ≠ ⟨[⟨[], [.int 0]⟩]⟩ :=
  ⟨phys_rt, by decide, by decide, by decide⟩

/-- Witness for C2: the general wrap statement applied at the failing
input. -/
theorem physics_roundtrip_wraps_indices_witness :
    wfPhysicsMesh ⟨[⟨[], [.int 0]⟩]⟩ ∧
    ∃ bs, PhysicsMesh.to_writer ⟨[⟨[], [.int 0]⟩]⟩ = some bs ∧
      PhysicsMesh.from_reader true bs = .ok (⟨[⟨[], [.tup1 0]⟩]⟩, []) :=
  ⟨by decide, physics_roundtrip_wraps_indices.1 ⟨[⟨[], [.int 0]⟩]⟩ (by decide)⟩

/-! Short-input behaviour of the primitives. -/

theorem read_ushort_short {bs : Bytes} (h : bs.length < 2) :
    read_ushort bs = .error .truncated := by
  show pbind (readExact 2) _ _ = _
  rw [pbind_run_err]
  unfold readExact
  rw [if_neg (by omega)]

theorem read_ushort_long {bs : Bytes} (h : 2 ≤ bs.length) :
    read_ushort bs = .ok (leVal (bs.take 2), bs.drop 2) := by
  show pbind (readExact 2) _ _ = _
  rw [pbind_run_ok _ (show readExact 2 bs = .ok (bs.take 2, bs.drop 2) by
    unfold readExact; rw [if_pos h])]
  rfl

theorem pbind_read_ushort_short {β : Type} (f : Nat → SrcReader β) {bs : Bytes}
    (h : bs.length < 2) : pbind read_ushort f bs = .error .truncated :=
  pbind_run_err f (read_ushort_short h)

theorem pbind_read_ushort_long {β : Type} (f : Nat → SrcReader β) {bs : Bytes}
    (h : 2 ≤ bs.length) : pbind read_ushort f bs = f (leVal (bs.take 2)) (bs.drop 2) :=
  pbind_run_ok f (read_ushort_long h)

/-- Claim C5.  In non-strict mode none of the three parsers reads the 4-byte
magic tag: the short-circuit of "strict and reader.read(4)" makes the
non-strict parse identical to running the after-magic body at offset 0.
Consequently every field is decoded 4 bytes earlier than in strict mode: on
the canonical one-vertex mesh buffer of the specification, the strict parse
succeeds while the non-strict parse reads the magic bytes as header fields,
takes the vertex count from the wrong offset, and dies of truncation. -/
theorem nonstrict_never_reads_magic :
    (∀ bs, Mesh.from_reader false bs = Mesh.fromReaderBody false bs) ∧
    (∀ bs, PhysicsMesh.from_reader false bs = PhysicsMesh.fromReaderBody false bs) ∧
    (∀ bs, Anim.from_reader false bs = Anim.fromReaderBody false bs) ∧
    Mesh.from_reader true
      [109, 101, 115, 104, 7, 0, 1, 0, 1, 0, 19, 0, 0, 0, 0, 0, 0, 0, 0, 0, 0, 0, 0, 0,
       0, 0, 255, 0, 0, 255, 0, 0, 0, 0, 0, 0, 0, 0, 0, 0, 128, 63, 3, 0, 0, 0, 0, 0,
       0, 0, 0, 0, 0, 0, 0, 0] =
      .ok (⟨[⟨⟨0, 0, 0⟩, ⟨255, 0, 0, 255⟩, ⟨0, 0, 1065353216⟩⟩], [0, 0, 0], []⟩, []) ∧
    Mesh.from_reader false
      [109, 101, 115, 104, 7, 0, 1, 0, 1, 0, 19, 0, 0, 0, 0, 0, 0, 0, 0, 0, 0, 0, 0, 0,
       0, 0, 255, 0, 0, 255, 0, 0, 0, 0, 0, 0, 0, 0, 0, 0, 128, 63, 3, 0, 0, 0, 0, 0,
       0, 0, 0, 0, 0, 0, 0, 0] = .error .truncated :=
  ⟨fun _ => rfl, fun _ => rfl, fun _ => rfl, by decide, by decide⟩

/-- Claim C4 (code bug).  On a buffer that is a well-formed empty mesh file
except that the first header field is 8 instead of 7, the strict parse fails
with a format violation as the claim states; but the non-strict parse does
not succeed with the h0=7 mesh value: because non-strict mode skips the
4-byte magic read, every field is decoded 4 bytes early and this buffer dies
of truncation.  Parsing the bytes after the magic non-strictly, or the same
buffer with h0=7 strictly, produces the empty mesh, which is what the claim
expected non-strict mode to return. -/
theorem strict_vs_nonstrict_h0_divergence :
    Mesh.from_reader true
      [109, 101, 115, 104, 8, 0, 1, 0, 0, 0, 19, 0, 0, 0, 0, 0, 0, 0, 0, 0, 0, 0] =
      .error .formatViolation ∧
    Mesh.from_reader false
      [109, 101, 115, 104, 8, 0, 1, 0, 0, 0, 19, 0, 0, 0, 0, 0, 0, 0, 0, 0, 0, 0] =
      .error .truncated ∧
    Mesh.fromReaderBody false
      [8, 0, 1, 0, 0, 0, 19, 0, 0, 0, 0, 0, 0, 0, 0, 0, 0, 0] = .ok (⟨[], [], []⟩, []) ∧
    Mesh.from_reader true
      [109, 101, 115, 104, 7, 0, 1, 0, 0, 0, 19, 0, 0, 0, 0, 0, 0, 0, 0, 0, 0, 0] =
      .ok (⟨[], [], []⟩, []) :=
  ⟨by decide, by decide, by decide, by decide⟩

/-- Counterexample to claim C7 as stated: a mesh buffer that ends inside the
byte payload of a sub-mesh name (declared length 5, one byte 0xff remaining)
fails with a decode error, not with the truncation error the claim requires
for every truncated buffer. -/
theorem truncated_name_decode_error :
    Mesh.from_reader true
      [109, 101, 115, 104, 7, 0, 1, 0, 0, 0, 19, 0, 0, 0, 0, 0, 0, 0, 1, 0, 0, 0, 0, 0, 0, 0, 0, 0, 0, 0, 0, 0, 0, 0, 0, 0, 0, 0, 0, 0, 0, 0, 0, 0, 0, 0, 0, 0, 0, 0, 0, 0, 0, 0, 0, 0, 0, 0, 5, 0, 255] = .error .decodeError ∧
    PErr.decodeError ≠ PErr.truncated :=
  ⟨by decide, by decide⟩

/-- Counterexample to claim C3 as stated: a non-strict Anim parse still
raises a format violation for the vertex-byte-size divisibility constraint
the specification marks as strict-only.  The buffer holds h0, a mesh count
of 1, and a first AnimMesh whose vertexByteSize is 1 (not a multiple of
52). -/
theorem anim_nonstrict_size_check_fires :
    Anim.from_reader false
      [0, 0, 0, 0, 1, 0, 0, 0, 0, 0, 0, 0, 0, 0, 0, 0, 0, 0, 1, 0, 0, 0] =
      .error .formatViolation :=
  by decide

/-- Claim C3 as amended.  In non-strict mode the value checks on the AnimMesh
header fields are skipped, but the two byte-size divisibility checks
(vertexByteSize % 52 and indexByteSize % 12) are written without the strict
guard and therefore abort the parse with a format violation in non-strict
mode too. -/
theorem animmesh_size_checks_both_modes :
    (∀ (h0 h1 h2 vsz : Nat) (rest : Bytes), vsz % 52 ≠ 0 →
      AnimMesh.from_reader false (le32 h0 ++ (le32 h1 ++ (le16 h2 ++ (le32 vsz ++ rest)))) =
        .error .formatViolation) ∧
    (∀ (h0 h1 h2 isz : Nat) (rest : Bytes), isz % 12 ≠ 0 →
      AnimMesh.from_reader false
        (le32 h0 ++ (le32 h1 ++ (le16 h2 ++ (le32 0 ++ (le32 isz ++ rest))))) =
        .error .formatViolation) ∧
    AnimMesh.from_reader false (le32 0 ++ (le32 5 ++ (le16 9 ++ (le32 0 ++ le32 0)))) =
      .ok (⟨5, [], []⟩, []) := by
  refine ⟨?_, ?_, by decide⟩
  · intro h0 h1 h2 vsz rest h
    have hb : (vsz % 52 != 0) = true := by simp [h]
    simp only [AnimMesh.from_reader, bind_eq_pbind, pure_eq_ppure, pbind_assoc,
      List.append_assoc, pbind_read_uint_run, pbind_read_ushort_run, pbind_guardFV_run,
      Bool.false_and, hb, reduceIte]
    simp only [Bool.false_eq_true, if_false, if_true]
  · intro h0 h1 h2 isz rest h
    have hb : (isz % 12 != 0) = true := by simp [h]
    simp only [AnimMesh.from_reader, bind_eq_pbind, pure_eq_ppure, pbind_assoc,
      List.append_assoc, pbind_read_uint_run, pbind_read_ushort_run, pbind_guardFV_run,
      Bool.false_and, Nat.zero_mod, Nat.zero_div, bne_self_eq_false, readN, hb, reduceIte,
      Bool.false_eq_true, if_false, if_true, pbind_ppure_run]

/-- Witness for the amended C3: vertexByteSize 1 aborts a non-strict AnimMesh
parse with a format violation. -/
theorem animmesh_size_checks_both_modes_witness :
    AnimMesh.from_reader false (le32 0 ++ (le32 0 ++ (le16 0 ++ (le32 1 ++ [])))) =
      .error .formatViolation :=
  animmesh_size_checks_both_modes.1 0 0 0 1 [] (by decide)

/-! Inversion lemmas for successful runs. -/

theorem ppure_ok_iff {α : Type} {a b : α} {bs r : Bytes} :
    ppure a bs = .ok (b, r) ↔ b = a ∧ r = bs := by
  unfold ppure
  constructor
  · intro h
    have := Except.ok.inj h
    exact ⟨(Prod.mk.injEq _ _ _ _ ▸ this).1.symm, (Prod.mk.injEq _ _ _ _ ▸ this).2.symm⟩
  · rintro ⟨rfl, rfl⟩
    rfl

theorem guardFV_ok_iff {c : Bool} {bs r : Bytes} {u : Unit} :
    guardFV c bs = .ok (u, r) ↔ c = false ∧ r = bs := by
  cases c
  · constructor
    · intro h
      have h2 : ppure () bs = .ok (u, r) := h
      exact ⟨rfl, (ppure_ok_iff.mp h2).2⟩
    · rintro ⟨_, rfl⟩
      rfl
  · simp [guardFV, pfail]

theorem readN_ok_length {α : Type} (p : SrcReader α) :
    ∀ (n : Nat) {bs : Bytes} {l : List α} {r : Bytes},
      readN p n bs = .ok (l, r) → l.length = n := by
  intro n
  induction n with
  | zero =>
    intro bs l r h
    simp only [readN, pure_eq_ppure, ppure_ok_iff] at h
    rw [h.1]
    rfl
  | succ n ih =>
    intro bs l r h
    simp only [readN, bind_eq_pbind, pure_eq_ppure, pbind_ok_iff, ppure_ok_iff] at h
    obtain ⟨a, m1, _, as, m2, hN, rfl, rfl⟩ := h
    simp [ih hN]

theorem readIndices_ok_bound (vc : Nat) :
    ∀ (n : Nat) {bs : Bytes} {l : List Nat} {r : Bytes},
      readIndices true vc n bs = .ok (l, r) → ∀ v ∈ l, v < vc := by
  intro n
  induction n with
  | zero =>
    intro bs l r h
    simp only [readIndices, pure_eq_ppure, ppure_ok_iff] at h
    rw [h.1]
    intro v hv
    cases hv
  | succ n ih =>
    intro bs l r h
    simp only [readIndices, bind_eq_pbind, pure_eq_ppure, pbind_ok_iff, ppure_ok_iff,
      guardFV_ok_iff] at h
    obtain ⟨v, m1, _, u, m2, ⟨hguard, rfl⟩, vs, m3, hrec, rfl, rfl⟩ := h
    intro w hw
    rcases List.mem_cons.mp hw with rfl | hmem
    · by_contra hnot
      have : (true && !decide (w < vc)) = true := by
        simp [hnot]
      rw [this] at hguard
      cases hguard
    · exact ih hrec w hmem

/-- Claim C6.  Every Mesh returned by a successful strict-mode parse has all
its indices inside the vertex table (the lower bound is automatic for an
unsigned field), and the index-reading loop aborts with a format violation
the moment it reads an index that is not below the declared vertex count. -/
theorem strict_parse_index_bound :
    (∀ (bs : Bytes) (m : Mesh) (rest : Bytes), Mesh.from_reader true bs = .ok (m, rest) →
      ∀ i ∈ m.indices, i < m.vertices.length) ∧
    (∀ (vc k v : Nat) (rest : Bytes), ¬ v < vc →
      readIndices true vc (k + 1) (le16 v ++ rest) = .error .formatViolation) := by
  constructor
  · intro bs m rest h
    simp only [Mesh.from_reader, Mesh.fromReaderBody, bind_eq_pbind, pure_eq_ppure,
      pbind_ok_iff, ppure_ok_iff, guardFV_ok_iff] at h
    obtain ⟨u0, r0, _, h0, r1, _, h1, r2, _, vc, r3, _, h3, r4, _, h4, r5, _,
      u1, r6, ⟨_, rfl⟩, u2, r7, ⟨_, rfl⟩, u3, r8, ⟨_, rfl⟩, u4, r9, ⟨_, rfl⟩,
      verts, r10, hverts, ic, r11, _, u5, r12, ⟨_, rfl⟩, inds, r13, hinds,
      sc, r14, _, subs, r15, hsubs, tl, r16, _, u6, r17, ⟨_, rfl⟩, rfl, rfl⟩ := h
    intro i hi
    have hlen : verts.length = vc := readN_ok_length _ _ hverts
    have := readIndices_ok_bound vc ic hinds i hi
    simpa [hlen] using this
  · intro vc k v rest hnot
    have hb : (true && !decide (v < vc)) = true := by simp [hnot]
    simp only [readIndices, bind_eq_pbind, pure_eq_ppure, pbind_assoc,
      pbind_read_ushort_run, pbind_guardFV_run, hb, if_true]

/-- Witness for C6: the canonical one-vertex buffer parses with all indices
below the vertex count, and an index 5 against a single-vertex table aborts
with a format violation. -/
theorem strict_parse_index_bound_witness :
    (∀ i ∈ (Mesh.mk [⟨⟨0, 0, 0⟩, ⟨255, 0, 0, 255⟩, ⟨0, 0, 1065353216⟩⟩] [0, 0, 0] []).indices,
      i < (Mesh.mk [⟨⟨0, 0, 0⟩, ⟨255, 0, 0, 255⟩, ⟨0, 0, 1065353216⟩⟩] [0, 0, 0] []).vertices.length) ∧
    readIndices true 1 1 (le16 5 ++ []) = .error .formatViolation :=
  ⟨strict_parse_index_bound.1
      [109, 101, 115, 104, 7, 0, 1, 0, 1, 0, 19, 0, 0, 0, 0, 0, 0, 0, 0, 0, 0, 0, 0, 0,
       0, 0, 255, 0, 0, 255, 0, 0, 0, 0, 0, 0, 0, 0, 0, 0, 128, 63, 3, 0, 0, 0, 0, 0,
       0, 0, 0, 0, 0, 0, 0, 0]
      (Mesh.mk [⟨⟨0, 0, 0⟩, ⟨255, 0, 0, 255⟩, ⟨0, 0, 1065353216⟩⟩] [0, 0, 0] []) []
      (by decide),
    strict_parse_index_bound.2 1 0 5 [] (by decide)⟩

/-! Truncation analysis for claim C7: cutting the input of a successful
parse anywhere strictly inside the consumed region. -/

theorem readExact_ok_iff {n : Nat} {bs a mid : Bytes} :
    readExact n bs = .ok (a, mid) ↔ n ≤ bs.length ∧ a = bs.take n ∧ mid = bs.drop n := by
  unfold readExact
  by_cases hn : n ≤ bs.length
  · rw [if_pos hn]
    constructor
    · intro h
      have h2 := Except.ok.inj h
      exact ⟨hn, ((Prod.mk.injEq _ _ _ _).mp h2).1.symm, ((Prod.mk.injEq _ _ _ _).mp h2).2.symm⟩
    · rintro ⟨_, rfl, rfl⟩; rfl
  · rw [if_neg hn]
    constructor
    · intro h; simp at h
    · rintro ⟨h, _, _⟩; exact absurd h hn

theorem readAvail_ok_iff {n : Nat} {bs a mid : Bytes} :
    readAvail n bs = .ok (a, mid) ↔ a = bs.take n ∧ mid = bs.drop n := by
  unfold readAvail
  constructor
  · intro h
    have h2 := Except.ok.inj h
    exact ⟨((Prod.mk.injEq _ _ _ _).mp h2).1.symm, ((Prod.mk.injEq _ _ _ _).mp h2).2.symm⟩
  · rintro ⟨rfl, rfl⟩; rfl

theorem goodParser_ppure {α : Type} (a : α) : GoodParser (ppure a) := by
  refine ⟨?_, ?_, ?_⟩
  · intro bs b mid h
    obtain ⟨rfl, rfl⟩ := ppure_ok_iff.mp h
    exact le_rfl
  · intro bs b mid h k hk
    obtain ⟨rfl, rfl⟩ := ppure_ok_iff.mp h
    simp [ppure_run]
  · intro bs b mid h k hk
    obtain ⟨rfl, rfl⟩ := ppure_ok_iff.mp h
    omega

theorem goodParser_pfail (α : Type) (e : PErr) : GoodParser (pfail e : SrcReader α) := by
  refine ⟨?_, ?_, ?_⟩ <;> intro bs b mid h <;> simp [pfail_run] at h

theorem goodParser_guardFV (c : Bool) : GoodParser (guardFV c) := by
  cases c
  · exact goodParser_ppure ()
  · exact goodParser_pfail Unit .formatViolation

theorem goodParser_readExact (n : Nat) : GoodParser (readExact n) := by
  refine ⟨?_, ?_, ?_⟩
  · intro bs a mid h
    obtain ⟨hn, rfl, rfl⟩ := readExact_ok_iff.mp h
    simp [List.length_drop]
  · intro bs a mid h k hk
    obtain ⟨hn, rfl, rfl⟩ := readExact_ok_iff.mp h
    have hc : bs.length - (bs.drop n).length = n := by
      simp [List.length_drop]; omega
    rw [hc] at hk ⊢
    rw [readExact_ok_iff]
    refine ⟨by simp [List.length_take]; omega, ?_, ?_⟩
    · rw [List.take_take]
      congr 1
      omega
    · rw [List.drop_take]
  · intro bs a mid h k hk
    obtain ⟨hn, rfl, rfl⟩ := readExact_ok_iff.mp h
    have hc : bs.length - (bs.drop n).length = n := by
      simp [List.length_drop]; omega
    rw [hc] at hk
    refine ⟨.truncated, ?_, Or.inl rfl⟩
    unfold readExact
    rw [if_neg (by simp [List.length_take]; omega)]

theorem goodParser_bind {α β : Type} {p : SrcReader α} {f : α → SrcReader β}
    (hp : GoodParser p) (hf : ∀ a, GoodParser (f a)) : GoodParser (pbind p f) := by
  obtain ⟨hpc, hps, hpf⟩ := hp
  refine ⟨?_, ?_, ?_⟩
  · intro bs b rest h
    obtain ⟨a, mid, hpa, hfa⟩ := pbind_ok_iff.mp h
    exact le_trans ((hf a).1 _ _ _ hfa) (hpc _ _ _ hpa)
  · intro bs b rest h k hk
    obtain ⟨a, mid, hpa, hfa⟩ := pbind_ok_iff.mp h
    have h1 := hpc _ _ _ hpa
    have h2 := (hf a).1 _ _ _ hfa
    have hs1 := hps _ _ _ hpa k (by omega)
    have hs2 := (hf a).2.1 _ _ _ hfa (k - (bs.length - mid.length)) (by omega)
    rw [pbind_run_ok f hs1, hs2]
    have h3 : k - (bs.length - mid.length) - (mid.length - rest.length) =
        k - (bs.length - rest.length) := by omega
    rw [h3]
  · intro bs b rest h k hk
    obtain ⟨a, mid, hpa, hfa⟩ := pbind_ok_iff.mp h
    have h1 := hpc _ _ _ hpa
    have h2 := (hf a).1 _ _ _ hfa
    by_cases hc : k < bs.length - mid.length
    · obtain ⟨e, he, hce⟩ := hpf _ _ _ hpa k hc
      exact ⟨e, pbind_run_err f he, hce⟩
    · have hs1 := hps _ _ _ hpa k (by omega)
      obtain ⟨e, he, hce⟩ := (hf a).2.2 _ _ _ hfa (k - (bs.length - mid.length)) (by omega)
      exact ⟨e, by rw [pbind_run_ok f hs1]; exact he, hce⟩

theorem goodParser_ite {α : Type} (b : Bool) {p q : SrcReader α}
    (hp : GoodParser p) (hq : GoodParser q) : GoodParser (if b then p else q) := by
  cases b
  · exact hq
  · exact hp

theorem read_name_run_long {bs : Bytes} (h2 : 2 ≤ bs.length) :
    read_name bs = (if validUtf8 ((bs.drop 2).take (leVal (bs.take 2)))
      then .ok ((bs.drop 2).take (leVal (bs.take 2)), (bs.drop 2).drop (leVal (bs.take 2)))
      else .error .decodeError) := by
  have h1 : read_name bs = pbind read_ushort (fun nl => pbind (readAvail nl)
      (fun c => if validUtf8 c then ppure c else pfail .decodeError)) bs := rfl
  rw [h1, pbind_run_ok _ (read_ushort_long h2),
    pbind_run_ok _ (show readAvail (leVal (bs.take 2)) (bs.drop 2) =
      .ok ((bs.drop 2).take (leVal (bs.take 2)), (bs.drop 2).drop (leVal (bs.take 2))) from rfl)]
  by_cases hv : validUtf8 ((bs.drop 2).take (leVal (bs.take 2))) = true
  · rw [if_pos hv, if_pos hv, ppure_run]
  · rw [if_neg hv, if_neg hv, pfail_run]

theorem read_name_run_short {bs : Bytes} (h2 : bs.length < 2) :
    read_name bs = .error .truncated := by
  have h1 : read_name bs = pbind read_ushort (fun nl => pbind (readAvail nl)
      (fun c => if validUtf8 c then ppure c else pfail .decodeError)) bs := rfl
  rw [h1, pbind_run_err _ (read_ushort_short h2)]

theorem read_name_ok_elim {bs a mid : Bytes} (h : read_name bs = .ok (a, mid)) :
    2 ≤ bs.length ∧ a = (bs.drop 2).take (leVal (bs.take 2)) ∧ validUtf8 a = true ∧
      mid = (bs.drop 2).drop (leVal (bs.take 2)) := by
  by_cases h2 : 2 ≤ bs.length
  · rw [read_name_run_long h2] at h
    by_cases hv : validUtf8 ((bs.drop 2).take (leVal (bs.take 2))) = true
    · rw [if_pos hv] at h
      have h3 := Except.ok.inj h
      have ha := ((Prod.mk.injEq _ _ _ _).mp h3).1
      have hm := ((Prod.mk.injEq _ _ _ _).mp h3).2
      exact ⟨h2, ha.symm, ha ▸ hv, hm.symm⟩
    · rw [if_neg hv] at h
      simp at h
  · rw [read_name_run_short (by omega)] at h
    simp at h

theorem read_name_consumes {bs a mid : Bytes} (h : read_name bs = .ok (a, mid)) :
    mid.length ≤ bs.length := by
  obtain ⟨h2, _, _, rfl⟩ := read_name_ok_elim h
  simp [List.length_drop]

theorem read_name_stable {bs a mid : Bytes} (h : read_name bs = .ok (a, mid)) :
    ∀ k, bs.length - mid.length ≤ k →
      read_name (bs.take k) = .ok (a, mid.take (k - (bs.length - mid.length))) := by
  obtain ⟨h2, ha, hv, hm⟩ := read_name_ok_elim h
  intro k hk
  have hmlen : mid.length = bs.length - 2 - leVal (bs.take 2) := by
    rw [hm]; simp only [List.length_drop]
  by_cases hfull : 2 + leVal (bs.take 2) ≤ bs.length
  · have hc : bs.length - mid.length = 2 + leVal (bs.take 2) := by omega
    rw [hc] at hk ⊢
    have h2k : 2 ≤ (bs.take k).length := by simp [List.length_take]; omega
    have hpre : (bs.take k).take 2 = bs.take 2 := by
      rw [List.take_take]; congr 1; omega
    rw [read_name_run_long h2k, hpre]
    have hdt : (bs.take k).drop 2 = (bs.drop 2).take (k - 2) := List.drop_take k 2 bs
    have hchunk : ((bs.take k).drop 2).take (leVal (bs.take 2)) =
        (bs.drop 2).take (leVal (bs.take 2)) := by
      rw [hdt, List.take_take]; congr 1; omega
    rw [hchunk, ← ha, if_pos hv]
    have hrest : ((bs.take k).drop 2).drop (leVal (bs.take 2)) =
        mid.take (k - (2 + leVal (bs.take 2))) := by
      rw [hdt, List.drop_take, hm]
      congr 1
      omega
    rw [hrest]
  · have hmid0 : mid = [] := by
      apply List.eq_nil_of_length_eq_zero; omega
    have hc : bs.length - mid.length = bs.length := by rw [hmid0]; simp
    rw [hc] at hk ⊢
    rw [List.take_of_length_le hk, h, hmid0]
    simp

theorem read_name_aborts {bs a mid : Bytes} (h : read_name bs = .ok (a, mid)) :
    ∀ k, k < bs.length - mid.length →
      (∃ e, read_name (bs.take k) = .error e ∧ ClassifiedErr e) ∨
      (∃ a2, read_name (bs.take k) = .ok (a2, [])) := by
  obtain ⟨h2, ha, hv, hm⟩ := read_name_ok_elim h
  intro k hk
  have hmlen : mid.length = bs.length - 2 - leVal (bs.take 2) := by
    rw [hm]; simp only [List.length_drop]
  have hkc : k < 2 + leVal (bs.take 2) ∧ k < bs.length := by
    constructor <;> omega
  by_cases hk2 : k < 2
  · left
    refine ⟨.truncated, ?_, Or.inl rfl⟩
    exact read_name_run_short (by simp [List.length_take]; omega)
  · have h2k : 2 ≤ (bs.take k).length := by simp [List.length_take]; omega
    have hpre : (bs.take k).take 2 = bs.take 2 := by
      rw [List.take_take]; congr 1; omega
    have hdt : (bs.take k).drop 2 = (bs.drop 2).take (k - 2) := List.drop_take k 2 bs
    have hchunk : ((bs.take k).drop 2).take (leVal (bs.take 2)) =
        (bs.drop 2).take (k - 2) := by
      rw [hdt, List.take_take]; congr 1; omega
    have hrest : ((bs.take k).drop 2).drop (leVal (bs.take 2)) = [] := by
      apply List.eq_nil_of_length_eq_zero
      simp [List.length_drop, List.length_take]
      omega
    by_cases hv2 : validUtf8 ((bs.drop 2).take (k - 2)) = true
    · right
      refine ⟨(bs.drop 2).take (k - 2), ?_⟩
      rw [read_name_run_long h2k, hpre, hchunk, if_pos hv2, hrest]
    · left
      refine ⟨.decodeError, ?_, Or.inr rfl⟩
      rw [read_name_run_long h2k, hpre, hchunk, if_neg hv2]

theorem goodParser_bind_name {β : Type} {f : Bytes → SrcReader β}
    (hf : ∀ a, GoodParser (f a))
    (hempty : ∀ a, ∃ e, f a [] = .error e ∧ ClassifiedErr e) :
    GoodParser (pbind read_name f) := by
  refine ⟨?_, ?_, ?_⟩
  · intro bs b rest h
    obtain ⟨a, mid, hpa, hfa⟩ := pbind_ok_iff.mp h
    exact le_trans ((hf a).1 _ _ _ hfa) (read_name_consumes hpa)
  · intro bs b rest h k hk
    obtain ⟨a, mid, hpa, hfa⟩ := pbind_ok_iff.mp h
    have h1 := read_name_consumes hpa
    have h2 := (hf a).1 _ _ _ hfa
    have hs1 := read_name_stable hpa k (by omega)
    have hs2 := (hf a).2.1 _ _ _ hfa (k - (bs.length - mid.length)) (by omega)
    rw [pbind_run_ok f hs1, hs2]
    have h3 : k - (bs.length - mid.length) - (mid.length - rest.length) =
        k - (bs.length - rest.length) := by omega
    rw [h3]
  · intro bs b rest h k hk
    obtain ⟨a, mid, hpa, hfa⟩ := pbind_ok_iff.mp h
    have h1 := read_name_consumes hpa
    have h2 := (hf a).1 _ _ _ hfa
    by_cases hc : k < bs.length - mid.length
    · rcases read_name_aborts hpa k hc with ⟨e, he, hce⟩ | ⟨a2, ha2⟩
      · exact ⟨e, pbind_run_err f he, hce⟩
      · obtain ⟨e, he, hce⟩ := hempty a2
        exact ⟨e, by rw [pbind_run_ok f ha2]; exact he, hce⟩
    · have hs1 := read_name_stable hpa k (by omega)
      obtain ⟨e, he, hce⟩ := (hf a).2.2 _ _ _ hfa (k - (bs.length - mid.length)) (by omega)
      exact ⟨e, by rw [pbind_run_ok f hs1]; exact he, hce⟩

theorem goodParser_read_ushort : GoodParser read_ushort :=
  goodParser_bind (goodParser_readExact 2) fun _ => goodParser_ppure _

theorem goodParser_read_uint : GoodParser read_uint :=
  goodParser_bind (goodParser_readExact 4) fun _ => goodParser_ppure _

theorem goodParser_read_f32 : GoodParser read_f32 :=
  goodParser_bind (goodParser_readExact 4) fun _ => goodParser_ppure _

theorem goodParser_read_int32 : GoodParser read_int32 :=
  goodParser_bind (goodParser_readExact 4) fun _ => goodParser_ppure _

theorem goodParser_read_u8 : GoodParser read_u8 :=
  goodParser_bind (goodParser_readExact 1) fun _ => goodParser_ppure _

theorem goodParser_SwVec3 : GoodParser SwVec3.from_reader :=
  goodParser_bind goodParser_read_f32 fun _ =>
  goodParser_bind goodParser_read_f32 fun _ =>
  goodParser_bind goodParser_read_f32 fun _ => goodParser_ppure _

theorem goodParser_SwColor : GoodParser SwColor.from_reader :=
  goodParser_bind goodParser_read_u8 fun _ =>
  goodParser_bind goodParser_read_u8 fun _ =>
  goodParser_bind goodParser_read_u8 fun _ =>
  goodParser_bind goodParser_read_u8 fun _ => goodParser_ppure _

theorem goodParser_SwQuaternion : GoodParser SwQuaternion.from_reader :=
  goodParser_bind goodParser_read_f32 fun _ =>
  goodParser_bind goodParser_read_f32 fun _ =>
  goodParser_bind goodParser_read_f32 fun _ =>
  goodParser_bind goodParser_read_f32 fun _ => goodParser_ppure _

theorem goodParser_readN {α : Type} {p : SrcReader α} (hp : GoodParser p) :
    ∀ n, GoodParser (readN p n)
  | 0 => goodParser_ppure _
  | n + 1 =>
    goodParser_bind hp fun _ =>
    goodParser_bind (goodParser_readN hp n) fun _ => goodParser_ppure _

theorem goodParser_SwMatrix3 : GoodParser SwMatrix3.from_reader :=
  goodParser_bind (goodParser_readN goodParser_read_f32 9) fun _ => goodParser_ppure _

theorem goodParser_MeshVertex : GoodParser MeshVertex.from_reader :=
  goodParser_bind goodParser_SwVec3 fun _ =>
  goodParser_bind goodParser_SwColor fun _ =>
  goodParser_bind goodParser_SwVec3 fun _ => goodParser_ppure _

theorem goodParser_readIndices (strict : Bool) (vc : Nat) :
    ∀ n, GoodParser (readIndices strict vc n)
  | 0 => goodParser_ppure _
  | n + 1 =>
    goodParser_bind goodParser_read_ushort fun _ =>
    goodParser_bind (goodParser_guardFV _) fun _ =>
    goodParser_bind (goodParser_readIndices strict vc n) fun _ => goodParser_ppure _

theorem goodParser_SubMesh (strict : Bool) : GoodParser (SubMesh.from_reader strict) :=
  goodParser_bind goodParser_read_uint fun _ =>
  goodParser_bind goodParser_read_uint fun _ =>
  goodParser_bind goodParser_read_ushort fun _ =>
  goodParser_bind goodParser_read_ushort fun _ =>
  goodParser_bind (goodParser_guardFV _) fun _ =>
  goodParser_bind (goodParser_guardFV _) fun _ =>
  goodParser_bind goodParser_SwVec3 fun _ =>
  goodParser_bind goodParser_SwVec3 fun _ =>
  goodParser_bind (goodParser_ite strict
    (goodParser_bind goodParser_read_ushort fun _ => goodParser_guardFV _)
    (goodParser_ppure ())) fun _ =>
  goodParser_bind_name
    (fun _ =>
      goodParser_bind goodParser_SwVec3 fun _ =>
      goodParser_bind (goodParser_guardFV _) fun _ => goodParser_ppure _)
    (fun _ => ⟨.truncated, rfl, Or.inl rfl⟩)

theorem goodParser_Mesh_fromReaderBody (strict : Bool) :
    GoodParser (Mesh.fromReaderBody strict) :=
  goodParser_bind goodParser_read_ushort fun _ =>
  goodParser_bind goodParser_read_ushort fun _ =>
  goodParser_bind goodParser_read_ushort fun vc =>
  goodParser_bind goodParser_read_ushort fun _ =>
  goodParser_bind goodParser_read_ushort fun _ =>
  goodParser_bind (goodParser_guardFV _) fun _ =>
  goodParser_bind (goodParser_guardFV _) fun _ =>
  goodParser_bind (goodParser_guardFV _) fun _ =>
  goodParser_bind (goodParser_guardFV _) fun _ =>
  goodParser_bind (goodParser_readN goodParser_MeshVertex vc) fun _ =>
  goodParser_bind goodParser_read_uint fun ic =>
  goodParser_bind (goodParser_guardFV _) fun _ =>
  goodParser_bind (goodParser_readIndices strict vc ic) fun _ =>
  goodParser_bind goodParser_read_ushort fun sc =>
  goodParser_bind (goodParser_readN (goodParser_SubMesh strict) sc) fun _ =>
  goodParser_bind goodParser_read_ushort fun _ =>
  goodParser_bind (goodParser_guardFV _) fun _ => goodParser_ppure _

theorem goodParser_SubPhysMesh : GoodParser SubPhysMesh.from_reader :=
  goodParser_bind goodParser_read_ushort fun vc =>
  goodParser_bind (goodParser_readN goodParser_SwVec3 vc) fun _ =>
  goodParser_bind goodParser_read_ushort fun ic =>
  goodParser_bind (goodParser_readN
    (goodParser_bind (goodParser_readExact 4) fun _ => goodParser_ppure _) ic) fun _ =>
  goodParser_ppure _

theorem goodParser_Phys_fromReaderBody (strict : Bool) :
    GoodParser (PhysicsMesh.fromReaderBody strict) :=
  goodParser_bind goodParser_read_ushort fun _ =>
  goodParser_bind goodParser_read_ushort fun sc =>
  goodParser_bind (goodParser_guardFV _) fun _ =>
  goodParser_bind (goodParser_readN goodParser_SubPhysMesh sc) fun _ => goodParser_ppure _

theorem goodParser_AnimVertex : GoodParser AnimVertex.from_reader :=
  goodParser_bind goodParser_SwVec3 fun _ =>
  goodParser_bind goodParser_SwColor fun _ =>
  goodParser_bind goodParser_read_f32 fun _ =>
  goodParser_bind goodParser_read_f32 fun _ =>
  goodParser_bind goodParser_SwVec3 fun _ =>
  goodParser_bind goodParser_read_f32 fun _ =>
  goodParser_bind goodParser_read_f32 fun _ =>
  goodParser_bind goodParser_read_f32 fun _ =>
  goodParser_bind goodParser_read_f32 fun _ => goodParser_ppure _

theorem goodParser_AnimMesh (strict : Bool) : GoodParser (AnimMesh.from_reader strict) :=
  goodParser_bind goodParser_read_uint fun _ =>
  goodParser_bind goodParser_read_uint fun _ =>
  goodParser_bind goodParser_read_ushort fun _ =>
  goodParser_bind (goodParser_guardFV _) fun _ =>
  goodParser_bind (goodParser_guardFV _) fun _ =>
  goodParser_bind goodParser_read_uint fun vsz =>
  goodParser_bind (goodParser_guardFV _) fun _ =>
  goodParser_bind (goodParser_readN goodParser_AnimVertex (vsz / 52)) fun _ =>
  goodParser_bind goodParser_read_uint fun isz =>
  goodParser_bind (goodParser_guardFV _) fun _ =>
  goodParser_bind (goodParser_readN goodParser_read_uint (isz / 4)) fun _ =>
  goodParser_ppure _

theorem goodParser_Bone : GoodParser Bone.from_reader :=
  goodParser_bind_name
    (fun _ =>
      goodParser_bind goodParser_SwMatrix3 fun _ =>
      goodParser_bind goodParser_SwVec3 fun _ =>
      goodParser_bind goodParser_read_int32 fun _ =>
      goodParser_bind goodParser_read_uint fun nc =>
      goodParser_bind (goodParser_readN goodParser_read_uint nc) fun _ => goodParser_ppure _)
    (fun _ => ⟨.truncated, rfl, Or.inl rfl⟩)

theorem goodParser_Pose : GoodParser Pose.from_reader :=
  goodParser_bind_name
    (fun _ =>
      goodParser_bind goodParser_read_uint fun nb =>
      goodParser_bind (goodParser_readN
        (goodParser_bind goodParser_SwMatrix3 fun _ =>
         goodParser_bind goodParser_SwVec3 fun _ => goodParser_ppure _) nb) fun _ =>
      goodParser_ppure _)
    (fun _ => ⟨.truncated, rfl, Or.inl rfl⟩)

theorem goodParser_TranslationKeyframe : GoodParser TranslationKeyframe.from_reader :=
  goodParser_bind goodParser_read_ushort fun _ =>
  goodParser_bind goodParser_SwVec3 fun _ => goodParser_ppure _

theorem goodParser_RotationKeyframe : GoodParser RotationKeyframe.from_reader :=
  goodParser_bind goodParser_read_ushort fun _ =>
  goodParser_bind goodParser_SwQuaternion fun _ => goodParser_ppure _

theorem goodParser_BoneAnimation : GoodParser BoneAnimation.from_reader :=
  goodParser_bind goodParser_read_uint fun _ =>
  goodParser_bind goodParser_read_uint fun nt =>
  goodParser_bind (goodParser_readN goodParser_TranslationKeyframe nt) fun _ =>
  goodParser_bind goodParser_read_uint fun nr =>
  goodParser_bind (goodParser_readN goodParser_RotationKeyframe nr) fun _ =>
  goodParser_ppure _

theorem goodParser_Animation : GoodParser Animation.from_reader :=
  goodParser_bind_name
    (fun _ =>
      goodParser_bind goodParser_read_uint fun nb =>
      goodParser_bind (goodParser_readN goodParser_BoneAnimation nb) fun _ =>
      goodParser_ppure _)
    (fun _ => ⟨.truncated, rfl, Or.inl rfl⟩)

theorem goodParser_Data3 : GoodParser Data3.from_reader :=
  goodParser_bind goodParser_read_uint fun _ =>
  goodParser_bind goodParser_SwMatrix3 fun _ =>
  goodParser_bind goodParser_SwVec3 fun _ =>
  goodParser_bind goodParser_read_f32 fun _ =>
  goodParser_bind goodParser_read_f32 fun _ =>
  goodParser_bind goodParser_SwMatrix3 fun _ =>
  goodParser_bind goodParser_SwMatrix3 fun _ =>
  goodParser_bind goodParser_read_f32 fun _ =>
  goodParser_bind goodParser_read_f32 fun _ => goodParser_ppure _

theorem goodParser_Anim_fromReaderBody (strict : Bool) :
    GoodParser (Anim.fromReaderBody strict) :=
  goodParser_bind goodParser_read_uint fun _ =>
  goodParser_bind goodParser_read_uint fun nm =>
  goodParser_bind (goodParser_guardFV _) fun _ =>
  goodParser_bind (goodParser_readN (goodParser_AnimMesh strict) nm) fun _ =>
  goodParser_bind goodParser_read_uint fun nb =>
  goodParser_bind (goodParser_readN goodParser_Bone nb) fun _ =>
  goodParser_bind goodParser_read_uint fun np =>
  goodParser_bind (goodParser_readN goodParser_Pose np) fun _ =>
  goodParser_bind goodParser_read_uint fun na =>
  goodParser_bind (goodParser_readN goodParser_Animation na) fun _ =>
  goodParser_bind goodParser_read_uint fun nd =>
  goodParser_bind (goodParser_readN goodParser_Data3 nd) fun _ => goodParser_ppure _

/-- Classification of a run on a cut-short buffer for a format whose parser
is a 4-byte magic-tag check followed by a body: away from the magic the
failure is a truncation or decode error; a strict-mode cut inside the magic
itself surfaces as a format violation, because the short read compares
unequal to the magic tag. -/
theorem from_reader_prefix_classified {X : Type} (magic : Bytes) (hm : magic.length = 4)
    (body : Bool → SrcReader X) (hbody : ∀ s, GoodParser (body s)) :
    ∀ (strict : Bool) (bs : Bytes) (x : X) (rest : Bytes),
      pbind (checkMagic magic strict) (fun _ => body strict) bs = .ok (x, rest) →
      ∀ k, k < bs.length - rest.length →
        ∃ e, pbind (checkMagic magic strict) (fun _ => body strict) (bs.take k) = .error e ∧
          (e = PErr.truncated ∨ e = PErr.decodeError ∨
            (strict = true ∧ k < 4 ∧ e = PErr.formatViolation)) := by
  intro strict bs x rest h k hk
  cases strict
  · have hPure : checkMagic magic false = ppure () := rfl
    rw [hPure, pbind_ppure_run] at h ⊢
    obtain ⟨e, he, hce⟩ := (hbody false).2.2 _ _ _ h k hk
    exact ⟨e, he, hce.elim Or.inl (fun h2 => Or.inr (Or.inl h2))⟩
  · obtain ⟨u, mid0, hck, hb⟩ := pbind_ok_iff.mp h
    have hck2 : pbind (readAvail 4) (fun m => guardFV (decide (m ≠ magic))) bs =
        .ok (u, mid0) := hck
    obtain ⟨m4, r4, hra, hg⟩ := pbind_ok_iff.mp hck2
    obtain ⟨rfl, rfl⟩ := readAvail_ok_iff.mp hra
    obtain ⟨hdec, rfl⟩ := guardFV_ok_iff.mp hg
    have hmag : bs.take 4 = magic := not_not.mp (of_decide_eq_false hdec)
    have hlen4 : 4 ≤ bs.length := by
      have h4 := congrArg List.length hmag
      rw [List.length_take, hm] at h4
      omega
    have hrl : rest.length ≤ (bs.drop 4).length := (hbody true).1 _ _ _ hb
    rw [List.length_drop] at hrl
    by_cases hk4 : k < 4
    · have ht4 : (bs.take k).take 4 = bs.take k :=
        List.take_of_length_le (by rw [List.length_take]; omega)
      have hd4 : (bs.take k).drop 4 = [] := by
        rw [List.drop_take k 4 bs]
        have hz : k - 4 = 0 := by omega
        rw [hz, List.take_zero]
      have hne : decide (bs.take k ≠ magic) = true := by
        apply decide_eq_true
        intro hEq
        have h4 := congrArg List.length hEq
        rw [List.length_take, hm] at h4
        omega
      have hckErr : checkMagic magic true (bs.take k) = .error .formatViolation := by
        show pbind (readAvail 4) (fun m => guardFV (decide (m ≠ magic))) (bs.take k) =
          .error .formatViolation
        rw [pbind_run_ok _ (show readAvail 4 (bs.take k) =
          .ok ((bs.take k).take 4, (bs.take k).drop 4) from rfl), ht4, hd4, hne]
        rfl
      exact ⟨.formatViolation, pbind_run_err _ hckErr, Or.inr (Or.inr ⟨rfl, hk4, rfl⟩)⟩
    · have ht4 : (bs.take k).take 4 = bs.take 4 := by
        rw [List.take_take]
        congr 1
        omega
      have hd4 : (bs.take k).drop 4 = (bs.drop 4).take (k - 4) := List.drop_take k 4 bs
      have hdec2 : decide (bs.take 4 ≠ magic) = false := decide_eq_false (fun hne => hne hmag)
      have hckOk : checkMagic magic true (bs.take k) = .ok ((), (bs.drop 4).take (k - 4)) := by
        show pbind (readAvail 4) (fun m => guardFV (decide (m ≠ magic))) (bs.take k) = _
        rw [pbind_run_ok _ (show readAvail 4 (bs.take k) =
          .ok ((bs.take k).take 4, (bs.take k).drop 4) from rfl), ht4, hd4, hdec2]
        rfl
      obtain ⟨e, he, hce⟩ := (hbody true).2.2 _ _ _ hb (k - 4)
        (by rw [List.length_drop]; omega)
      exact ⟨e, by rw [pbind_run_ok _ hckOk]; exact he,
        hce.elim Or.inl (fun h2 => Or.inr (Or.inl h2))⟩

/-- Claim C7 as amended.  No partial aggregate is ever returned from a
truncated buffer: for each of the three container formats and in both
modes, whenever a buffer parses successfully, cutting it anywhere strictly
inside the consumed region makes the parse fail.  The error is the
truncation error, or a decode error when the cut lands inside a
length-prefixed string payload whose short remainder is not valid UTF-8
(reader.read returns the short payload silently, and on a valid-UTF-8 short
remainder the parse fails at a later field, because a fixed-width read
always follows a name); the one exception to the claimed error kind is a
strict-mode cut inside the 4-byte magic tag, which is a format violation,
because the short read compares unequal to the magic.  In addition, any
buffer shorter than the ten-byte mesh header fails with the truncation
error in both modes whatever its bytes, and the specification example (a
header declaring ten vertices followed by only three vertex records worth
of zero bytes) fails with the truncation error in both modes. -/
theorem truncation_aborts_both_modes :
    (∀ (strict : Bool) (bs : Bytes) (m : Mesh) (rest : Bytes),
      Mesh.from_reader strict bs = .ok (m, rest) →
      ∀ k, k < bs.length - rest.length →
        ∃ e, Mesh.from_reader strict (bs.take k) = .error e ∧
          (e = PErr.truncated ∨ e = PErr.decodeError ∨
            (strict = true ∧ k < 4 ∧ e = PErr.formatViolation))) ∧
    (∀ (strict : Bool) (bs : Bytes) (pm : PhysicsMesh) (rest : Bytes),
      PhysicsMesh.from_reader strict bs = .ok (pm, rest) →
      ∀ k, k < bs.length - rest.length →
        ∃ e, PhysicsMesh.from_reader strict (bs.take k) = .error e ∧
          (e = PErr.truncated ∨ e = PErr.decodeError ∨
            (strict = true ∧ k < 4 ∧ e = PErr.formatViolation))) ∧
    (∀ (strict : Bool) (bs : Bytes) (an : Anim) (rest : Bytes),
      Anim.from_reader strict bs = .ok (an, rest) →
      ∀ k, k < bs.length - rest.length →
        ∃ e, Anim.from_reader strict (bs.take k) = .error e ∧
          (e = PErr.truncated ∨ e = PErr.decodeError ∨
            (strict = true ∧ k < 4 ∧ e = PErr.formatViolation))) ∧
    (∀ (strict : Bool) (body : Bytes), body.length < 10 →
      Mesh.fromReaderBody strict body = .error .truncated) ∧
    Mesh.from_reader true
      ([109, 101, 115, 104, 7, 0, 1, 0, 10, 0, 19, 0, 0, 0] ++ List.replicate 84 0) =
      .error .truncated ∧
    Mesh.from_reader false
      ([109, 101, 115, 104, 7, 0, 1, 0, 10, 0, 19, 0, 0, 0] ++ List.replicate 84 0) =
      .error .truncated := by
  refine ⟨?_, ?_, ?_, ?_, by decide, by decide⟩
  · exact fun strict bs m rest h k hk =>
      from_reader_prefix_classified meshMagic rfl (fun s => Mesh.fromReaderBody s)
        (fun s => goodParser_Mesh_fromReaderBody s) strict bs m rest h k hk
  · exact fun strict bs pm rest h k hk =>
      from_reader_prefix_classified physMagic rfl (fun s => PhysicsMesh.fromReaderBody s)
        (fun s => goodParser_Phys_fromReaderBody s) strict bs pm rest h k hk
  · exact fun strict bs an rest h k hk =>
      from_reader_prefix_classified animMagic rfl (fun s => Anim.fromReaderBody s)
        (fun s => goodParser_Anim_fromReaderBody s) strict bs an rest h k hk
  · intro strict body hlen
    simp only [Mesh.fromReaderBody, bind_eq_pbind, pure_eq_ppure]
    by_cases h1 : body.length < 2
    · rw [pbind_read_ushort_short _ h1]
    · rw [pbind_read_ushort_long _ (by omega)]
      by_cases h2 : (body.drop 2).length < 2
      · rw [pbind_read_ushort_short _ h2]
      · rw [pbind_read_ushort_long _ (by omega)]
        by_cases h3 : ((body.drop 2).drop 2).length < 2
        · rw [pbind_read_ushort_short _ h3]
        · rw [pbind_read_ushort_long _ (by omega)]
          by_cases h4 : (((body.drop 2).drop 2).drop 2).length < 2
          · rw [pbind_read_ushort_short _ h4]
          · rw [pbind_read_ushort_long _ (by omega)]
            rw [pbind_read_ushort_short _ (by simp [List.length_drop] at *; omega)]

/-- Witness for the amended C7, on cuts of concrete parseable buffers: a
cut in the middle of the vertex record of the canonical one-vertex mesh
buffer, in strict mode and in non-strict mode (where the buffer carries no
magic tag); a strict-mode cut inside the magic tag itself; cuts inside the
phys and anim headers; and the empty buffer against the mesh header. -/
theorem truncation_aborts_both_modes_witness :
    (∃ e, Mesh.from_reader true
        (([109, 101, 115, 104, 7, 0, 1, 0, 1, 0, 19, 0, 0, 0, 0, 0, 0, 0, 0, 0, 0, 0, 0, 0,
           0, 0, 255, 0, 0, 255, 0, 0, 0, 0, 0, 0, 0, 0, 0, 0, 128, 63, 3, 0, 0, 0, 0, 0,
           0, 0, 0, 0, 0, 0, 0, 0] : Bytes).take 20) = .error e ∧
      (e = PErr.truncated ∨ e = PErr.decodeError ∨
        (true = true ∧ 20 < 4 ∧ e = PErr.formatViolation))) ∧
    (∃ e, Mesh.from_reader true
        (([109, 101, 115, 104, 7, 0, 1, 0, 1, 0, 19, 0, 0, 0, 0, 0, 0, 0, 0, 0, 0, 0, 0, 0,
           0, 0, 255, 0, 0, 255, 0, 0, 0, 0, 0, 0, 0, 0, 0, 0, 128, 63, 3, 0, 0, 0, 0, 0,
           0, 0, 0, 0, 0, 0, 0, 0] : Bytes).take 2) = .error e ∧
      (e = PErr.truncated ∨ e = PErr.decodeError ∨
        (true = true ∧ 2 < 4 ∧ e = PErr.formatViolation))) ∧
    (∃ e, Mesh.from_reader false
        (([7, 0, 1, 0, 1, 0, 19, 0, 0, 0, 0, 0, 0, 0, 0, 0, 0, 0, 0, 0,
           0, 0, 255, 0, 0, 255, 0, 0, 0, 0, 0, 0, 0, 0, 0, 0, 128, 63, 3, 0, 0, 0, 0, 0,
           0, 0, 0, 0, 0, 0, 0, 0] : Bytes).take 16) = .error e ∧
      (e = PErr.truncated ∨ e = PErr.decodeError ∨
        (false = true ∧ 16 < 4 ∧ e = PErr.formatViolation))) ∧
    (∃ e, PhysicsMesh.from_reader true
        (([112, 104, 121, 115, 2, 0, 1, 0, 0, 0, 0, 0] : Bytes).take 5) = .error e ∧
      (e = PErr.truncated ∨ e = PErr.decodeError ∨
        (true = true ∧ 5 < 4 ∧ e = PErr.formatViolation))) ∧
    (∃ e, Anim.from_reader true
        (([97, 110, 105, 109, 1, 0, 0, 0, 0, 0, 0, 0, 0, 0, 0, 0, 0, 0, 0, 0, 0, 0, 0, 0,
           0, 0, 0, 0] : Bytes).take 10) = .error e ∧
      (e = PErr.truncated ∨ e = PErr.decodeError ∨
        (true = true ∧ 10 < 4 ∧ e = PErr.formatViolation))) ∧
    Mesh.fromReaderBody true [] = .error .truncated :=
  ⟨truncation_aborts_both_modes.1 true
      [109, 101, 115, 104, 7, 0, 1, 0, 1, 0, 19, 0, 0, 0, 0, 0, 0, 0, 0, 0, 0, 0, 0, 0,
       0, 0, 255, 0, 0, 255, 0, 0, 0, 0, 0, 0, 0, 0, 0, 0, 128, 63, 3, 0, 0, 0, 0, 0,
       0, 0, 0, 0, 0, 0, 0, 0]
      (Mesh.mk [⟨⟨0, 0, 0⟩, ⟨255, 0, 0, 255⟩, ⟨0, 0, 1065353216⟩⟩] [0, 0, 0] []) []
      (by decide) 20 (by decide),
   truncation_aborts_both_modes.1 true
      [109, 101, 115, 104, 7, 0, 1, 0, 1, 0, 19, 0, 0, 0, 0, 0, 0, 0, 0, 0, 0, 0, 0, 0,
       0, 0, 255, 0, 0, 255, 0, 0, 0, 0, 0, 0, 0, 0, 0, 0, 128, 63, 3, 0, 0, 0, 0, 0,
       0, 0, 0, 0, 0, 0, 0, 0]
      (Mesh.mk [⟨⟨0, 0, 0⟩, ⟨255, 0, 0, 255⟩, ⟨0, 0, 1065353216⟩⟩] [0, 0, 0] []) []
      (by decide) 2 (by decide),
   truncation_aborts_both_modes.1 false
      [7, 0, 1, 0, 1, 0, 19, 0, 0, 0, 0, 0, 0, 0, 0, 0, 0, 0, 0, 0,
       0, 0, 255, 0, 0, 255, 0, 0, 0, 0, 0, 0, 0, 0, 0, 0, 128, 63, 3, 0, 0, 0, 0, 0,
       0, 0, 0, 0, 0, 0, 0, 0]
      (Mesh.mk [⟨⟨0, 0, 0⟩, ⟨255, 0, 0, 255⟩, ⟨0, 0, 1065353216⟩⟩] [0, 0, 0] []) []
      (by decide) 16 (by decide),
   truncation_aborts_both_modes.2.1 true [112, 104, 121, 115, 2, 0, 1, 0, 0, 0, 0, 0]
      (PhysicsMesh.mk [SubPhysMesh.mk [] []]) [] (by decide) 5 (by decide),
   truncation_aborts_both_modes.2.2.1 true
      [97, 110, 105, 109, 1, 0, 0, 0, 0, 0, 0, 0, 0, 0, 0, 0, 0, 0, 0, 0, 0, 0, 0, 0,
       0, 0, 0, 0]
      (Anim.mk [] [] [] [] []) [] (by decide) 10 (by decide),
   truncation_aborts_both_modes.2.2.2.1 true [] (by decide)⟩

/-! Termination of validate_connected_tree. -/

theorem nodeFind_isSome_of_mem_keys {nodes : NodeMap} {k : Nat}
    (h : k ∈ nodes.map (fun p => p.1)) : (nodeFind nodes k).isSome := by
  obtain ⟨e, he, rfl⟩ := List.mem_map.mp h
  unfold nodeFind
  rw [Option.isSome_map']
  exact List.find?_isSome.mpr ⟨e, he, by simp⟩

theorem mem_keys_of_nodeFind_isSome {nodes : NodeMap} {k : Nat}
    (h : (nodeFind nodes k).isSome) : k ∈ nodes.map (fun p => p.1) := by
  unfold nodeFind at h
  rw [Option.isSome_map'] at h
  obtain ⟨e, he⟩ := Option.isSome_iff_exists.mp h
  have hm := List.mem_of_find?_eq_some he
  have hp := List.find?_some he
  simp only [decide_eq_true_eq] at hp
  exact List.mem_map.mpr ⟨e, hm, hp⟩

theorem nodeFind_entry_mem {nodes : NodeMap} {k : Nat} {pc : Int × List Nat}
    (h : nodeFind nodes k = some pc) : (k, pc) ∈ nodes := by
  unfold nodeFind at h
  obtain ⟨e, he, hmap⟩ := Option.map_eq_some'.mp h
  have hm := List.mem_of_find?_eq_some he
  have hp := List.find?_some he
  simp only [decide_eq_true_eq] at hp
  obtain ⟨k0, pc0⟩ := e
  cases hp
  cases hmap
  exact hm

theorem childCheck_none {nodes : NodeMap} {node_id : Nat} :
    ∀ {cs : List Nat}, childCheck nodes node_id cs = none →
      ∀ c ∈ cs, (nodeFind nodes c).isSome := by
  intro cs
  induction cs with
  | nil => intro _ c hc; cases hc
  | cons c0 cs ih =>
    intro h c hc
    unfold childCheck at h
    rcases hf : nodeFind nodes c0 with _ | pc
    · rw [hf] at h; cases h
    · rw [hf] at h
      dsimp only at h
      by_cases hpc : pc.1 ≠ (node_id : Int)
      · rw [if_pos hpc] at h; cases h
      · rw [if_neg hpc] at h
        rcases List.mem_cons.mp hc with rfl | hmem
        · rw [hf]; rfl
        · exact ih h c hmem

theorem edgeCheck_ok_children {nodes : NodeMap} :
    ∀ {l : List (Nat × Int × List Nat)} {n : Nat}, edgeCheck nodes l = .ok n →
      ∀ e ∈ l, ∀ c ∈ e.2.2, (nodeFind nodes c).isSome := by
  intro l
  induction l with
  | nil => intro n _ e he; cases he
  | cons e0 l ih =>
    intro n h e he c hc
    obtain ⟨id0, p0, cs0⟩ := e0
    unfold edgeCheck at h
    rcases hcc : childCheck nodes id0 cs0 with _ | msg
    · rw [hcc] at h
      dsimp only at h
      rcases hec : edgeCheck nodes l with msg2 | n2
      · rw [hec] at h; cases h
      · rw [hec] at h
        rcases List.mem_cons.mp he with rfl | hmem
        · exact childCheck_none hcc c hc
        · exact ih hec e hmem c hc
    · rw [hcc] at h
      dsimp only at h
      cases h

theorem dfsLoop_total (nodes : NodeMap)
    (hchild : ∀ (k : Nat) (pc : Int × List Nat), nodeFind nodes k = some pc →
      ∀ c ∈ pc.2, (nodeFind nodes c).isSome) :
    ∀ (fuel : Nat) (visited stack : List Nat),
      visited.Nodup → (∀ x ∈ visited, (nodeFind nodes x).isSome) →
      (∀ x ∈ stack, (nodeFind nodes x).isSome) →
      nodes.length + 1 ≤ fuel + visited.length →
      dfsLoop nodes fuel visited stack ≠ none := by
  intro fuel
  induction fuel with
  | zero =>
    intro visited stack hnd hvis _ hfuel
    exfalso
    have hsub : visited ⊆ nodes.map (fun p => p.1) :=
      fun x hx => mem_keys_of_nodeFind_isSome (hvis x hx)
    have := (List.Nodup.subperm hnd hsub).length_le
    simp only [List.length_map] at this
    omega
  | succ fuel ih =>
    intro visited stack hnd hvis hstk hfuel
    cases stack with
    | nil => simp [dfsLoop]
    | cons current stack =>
      unfold dfsLoop
      by_cases hmem : current ∈ visited
      · simp [hmem]
      · simp only [hmem, if_false, if_neg hmem]
        rcases hf : nodeFind nodes current with _ | pc
        · exact absurd (hstk current (List.mem_cons_self _ _)) (by simp [hf])
        · have hcur : (nodeFind nodes current).isSome := by simp [hf]
          refine ih (current :: visited) (pc.2.reverse ++ stack)
            (List.nodup_cons.mpr ⟨hmem, hnd⟩) ?_ ?_ (by simp; omega)
          · intro x hx
            rcases List.mem_cons.mp hx with rfl | hx2
            · exact hcur
            · exact hvis x hx2
          · intro x hx
            rcases List.mem_append.mp hx with hx2 | hx2
            · exact hchild current pc hf x (List.mem_reverse.mp hx2)
            · exact hstk x (List.mem_cons_of_mem _ hx2)

theorem validate_connected_tree_total (nodes : NodeMap) :
    validate_connected_tree nodes ≠ none := by
  unfold validate_connected_tree
  rcases hr : rootCandidates nodes with _ | ⟨root_id, _ | ⟨r2, rrest⟩⟩
  · simp
  · dsimp only
    rcases hec : edgeCheck nodes nodes with msg | ec
    · simp
    · dsimp only
      by_cases hcount : ec ≠ nodes.length - 1
      · rw [if_pos hcount]; simp
      · rw [if_neg hcount]
        have hchild : ∀ (k : Nat) (pc : Int × List Nat), nodeFind nodes k = some pc →
            ∀ c ∈ pc.2, (nodeFind nodes c).isSome := by
          intro k pc hk c hc
          exact edgeCheck_ok_children hec (k, pc) (nodeFind_entry_mem hk) c hc
        have hroot : (nodeFind nodes root_id).isSome := by
          have hmem : root_id ∈ rootCandidates nodes := by
            rw [hr]; exact List.mem_singleton.mpr rfl
          unfold rootCandidates at hmem
          obtain ⟨e, he, rfl⟩ := List.mem_map.mp hmem
          exact nodeFind_isSome_of_mem_keys
            (List.mem_map.mpr ⟨e, List.mem_of_mem_filter he, rfl⟩)
        have hdfs := dfsLoop_total nodes hchild (nodes.length + 1) [] [root_id]
          List.nodup_nil (by intro x hx; cases hx)
          (by intro x hx; rw [List.mem_singleton.mp hx]; exact hroot)
          (by simp)
        rcases hd : dfsLoop nodes (nodes.length + 1) [] [root_id] with _ | mr
        · exact absurd hd hdfs
        · rcases mr with msg | visited
          · simp
          · dsimp only
            by_cases hv : visited.length ≠ nodes.length
            · rw [if_pos hv]; simp
            · rw [if_neg hv]; simp
  · simp

/-- Claim C8.  The bone-tree validator terminates on every finite node map
(never reaching the stuck marker that models fuel exhaustion or a missing
key), and it reports the documented failure for each negative shape of the
specification, whose labels correspond to the strings of the source as
follows: multiple-roots is "multiple roots", parent-child-mismatch is
"inconsistent parent-child relationships", dangling-child-reference is
"reference to nonexistent node", disconnected is "not connected".  The
positive four-bone case of the specification is accepted. -/
theorem bone_tree_validator_negative_cases :
    (∀ nodes : NodeMap, (validate_connected_tree nodes).isSome = true) ∧
    validate_connected_tree [(0, -1, []), (1, -1, [])] =
      some (false, some "multiple roots") ∧
    validate_connected_tree [(0, -1, [1]), (1, 0, [2]), (2, 0, [])] =
      some (false, some "inconsistent parent-child relationships") ∧
    validate_connected_tree [(0, -1, [5]), (1, 0, [])] =
      some (false, some "reference to nonexistent node") ∧
    validate_connected_tree [(0, -1, [1]), (1, 0, []), (2, 2, [2])] =
      some (false, some "not connected") ∧
    validate_connected_tree [(0, -1, [1, 2]), (1, 0, [3]), (2, 0, []), (3, 1, [])] =
      some (true, none) :=
  ⟨fun nodes => Option.isSome_iff_ne_none.mpr (validate_connected_tree_total nodes),
    by decide, by decide, by decide, by decide, by decide⟩

/-- Claim C10 (code bug).  The mesh export path is not stateless across
calls: the vertices, indices and vertex_index_map attributes of
_PolygonOptimizer are declared at class level without an initializer, so
they are one shared mutable object surviving across instances.  Modelling
that shared state explicitly: the first save_mesh call on one triangle
starts from the pristine class state and emits indices [0,1,2] with a
sub-mesh starting at 0, while a second identical call starts from the state
the first left behind and emits indices [0,1,2,0,1,2] with a sub-mesh
starting at 3 - a different Mesh value, hence different output bytes,
contradicting the claim that two identical calls produce identical output. -/
theorem save_mesh_class_state_not_stateless :
    (save_mesh_core [[((0 : Nat), (1 : Nat), (2 : Nat))], [], [], []] (polyInit Nat)).1 =
      ⟨[0, 1, 2], [0, 1, 2], [⟨0, 3, 0⟩]⟩ ∧
    (save_mesh_core [[((0 : Nat), (1 : Nat), (2 : Nat))], [], [], []]
      ((save_mesh_core [[((0 : Nat), (1 : Nat), (2 : Nat))], [], [], []] (polyInit Nat)).2)).1 =
      ⟨[0, 1, 2], [0, 1, 2, 0, 1, 2], [⟨3, 3, 0⟩]⟩ ∧
    (⟨[0, 1, 2], [0, 1, 2], [⟨0, 3, 0⟩]⟩ : MeshOut Nat) ≠
      ⟨[0, 1, 2], [0, 1, 2, 0, 1, 2], [⟨3, 3, 0⟩]⟩ :=
  ⟨by decide, by decide, by decide⟩

/-! Correctness and termination of the bone transform resolution queue. -/

theorem get?_isSome_of_lt {α : Type} {l : List α} {i : Nat} (h : i < l.length) :
    ∃ a, l.get? i = some a := by
  cases hg : l.get? i with
  | none => exact absurd (List.get?_eq_none.mp hg) (by omega)
  | some a => exact ⟨a, rfl⟩

theorem exists_min_on (E : Nat → Nat) :
    ∀ {l : List Nat}, l ≠ [] → ∃ j ∈ l, ∀ j2 ∈ l, E j ≤ E j2 := by
  intro l
  induction l with
  | nil => intro h; exact absurd rfl h
  | cons a l ih =>
    intro _
    cases l with
    | nil => exact ⟨a, List.mem_singleton.mpr rfl, by
        intro j2 hj2; rw [List.mem_singleton.mp hj2]⟩
    | cons b l2 =>
      obtain ⟨j, hj, hmin⟩ := ih (by simp)
      by_cases hab : E a ≤ E j
      · refine ⟨a, List.mem_cons_self _ _, ?_⟩
        intro j2 hj2
        rcases List.mem_cons.mp hj2 with rfl | h2
        · exact Nat.le_refl _
        · exact Nat.le_trans hab (hmin j2 h2)
      · refine ⟨j, List.mem_cons_of_mem _ hj, ?_⟩
        intro j2 hj2
        rcases List.mem_cons.mp hj2 with rfl | h2
        · omega
        · exact hmin j2 h2

theorem nodup_bounded_length_le {l : List Nat} {n : Nat} (hnd : l.Nodup)
    (hlt : ∀ j ∈ l, j < n) : l.length ≤ n := by
  have hsub : l ⊆ List.range n := fun x hx => List.mem_range.mpr (hlt x hx)
  have := (List.Nodup.subperm hnd hsub).length_le
  simpa using this

theorem findIdx_append_left (p : Nat → Bool) :
    ∀ (l1 l2 : List Nat), l1.findIdx p < l1.length →
      (l1 ++ l2).findIdx p = l1.findIdx p := by
  intro l1
  induction l1 with
  | nil => intro l2 h; simp at h
  | cons a l ih =>
    intro l2 h
    cases hpa : p a
    · simp only [List.cons_append, List.findIdx_cons, hpa, cond_false] at h ⊢
      simp only [List.length_cons] at h
      rw [ih l2 (by omega)]
    · simp only [List.cons_append, List.findIdx_cons, hpa, cond_true]

/-- Fuel-independence of the path composition: any two fuel values above the
depth of a bone produce the same defined result. -/
theorem pathF_congr {M : Type} (mul : M → M → M) (parents : List Int) (locals : List M)
    (E : Nat → Nat) (hlen : locals.length = parents.length)
    (hEd : ∀ i p, i < parents.length → parents.get? i = some p → p ≠ -1 →
      0 ≤ p ∧ p.toNat < parents.length ∧ E p.toNat < E i) :
    ∀ (c i : Nat), i < parents.length → E i < c →
      ∀ f g, E i < f → E i < g →
        pathF mul parents locals f i = pathF mul parents locals g i ∧
        (pathF mul parents locals f i).isSome = true := by
  intro c
  induction c with
  | zero => intro i _ h; omega
  | succ c ih =>
    intro i hi hic f g hf hg
    obtain ⟨f2, rfl⟩ : ∃ f2, f = f2 + 1 := ⟨f - 1, by omega⟩
    obtain ⟨g2, rfl⟩ : ∃ g2, g = g2 + 1 := ⟨g - 1, by omega⟩
    obtain ⟨p, hp⟩ := get?_isSome_of_lt hi
    obtain ⟨m, hm⟩ := get?_isSome_of_lt (show i < locals.length by omega)
    by_cases hroot : p = -1
    · subst hroot
      constructor
      · show pathF mul parents locals (f2 + 1) i = pathF mul parents locals (g2 + 1) i
        unfold pathF
        rw [hp]
        dsimp only
        simp only [reduceIte]
      · show (pathF mul parents locals (f2 + 1) i).isSome = true
        unfold pathF
        rw [hp]
        dsimp only
        simp only [reduceIte]
        rw [hm]
        rfl
    · obtain ⟨hp0, hpn, hpd⟩ := hEd i p hi hp hroot
      have hrec_f := ih p.toNat hpn (by omega) f2 (E p.toNat + 1) (by omega) (by omega)
      have hrec_g := ih p.toNat hpn (by omega) g2 (E p.toNat + 1) (by omega) (by omega)
      obtain ⟨mp, hmp⟩ := Option.isSome_iff_exists.mp hrec_f.2
      have hg2 : pathF mul parents locals g2 p.toNat = some mp := by
        rw [hrec_g.1, ← hrec_f.1, hmp]
      constructor
      · show pathF mul parents locals (f2 + 1) i = pathF mul parents locals (g2 + 1) i
        unfold pathF
        rw [hp]
        dsimp only
        rw [if_neg hroot, if_neg hroot, hmp, hg2]
      · show (pathF mul parents locals (f2 + 1) i).isSome = true
        unfold pathF
        rw [hp]
        dsimp only
        rw [if_neg hroot, hmp, hm]
        rfl

theorem boneGlobal_isSome {M : Type} (mul : M → M → M) (parents : List Int) (locals : List M)
    (E : Nat → Nat) (hlen : locals.length = parents.length)
    (hEb : ∀ i, i < parents.length → E i < parents.length)
    (hEd : ∀ i p, i < parents.length → parents.get? i = some p → p ≠ -1 →
      0 ≤ p ∧ p.toNat < parents.length ∧ E p.toNat < E i)
    (i : Nat) (hi : i < parents.length) :
    (boneGlobal mul parents locals i).isSome = true := by
  unfold boneGlobal
  exact (pathF_congr mul parents locals E hlen hEd (E i + 1) i hi (by omega)
    parents.length (E i + 1) (hEb i hi) (by omega)).2

theorem boneGlobal_root {M : Type} (mul : M → M → M) (parents : List Int) (locals : List M)
    (i : Nat) (hi : i < parents.length) (hp : parents.get? i = some (-1)) :
    boneGlobal mul parents locals i = locals.get? i := by
  unfold boneGlobal
  obtain ⟨n2, hn2⟩ : ∃ n2, parents.length = n2 + 1 := ⟨parents.length - 1, by omega⟩
  rw [hn2]
  unfold pathF
  rw [hp]
  dsimp only
  simp only [reduceIte]

theorem boneGlobal_step {M : Type} (mul : M → M → M) (parents : List Int) (locals : List M)
    (E : Nat → Nat) (hlen : locals.length = parents.length)
    (hEb : ∀ i, i < parents.length → E i < parents.length)
    (hEd : ∀ i p, i < parents.length → parents.get? i = some p → p ≠ -1 →
      0 ≤ p ∧ p.toNat < parents.length ∧ E p.toNat < E i)
    (i : Nat) (p : Int) (hi : i < parents.length) (hp : parents.get? i = some p)
    (hroot : p ≠ -1) (mp m : M)
    (hmp : boneGlobal mul parents locals p.toNat = some mp)
    (hm : locals.get? i = some m) :
    boneGlobal mul parents locals i = some (mul mp m) := by
  obtain ⟨_, hpn, hpd⟩ := hEd i p hi hp hroot
  have hin := hEb i hi
  unfold boneGlobal at hmp ⊢
  obtain ⟨n2, hn2⟩ : ∃ n2, parents.length = n2 + 1 := ⟨parents.length - 1, by omega⟩
  rw [hn2] at hmp ⊢
  have hstable := (pathF_congr mul parents locals E hlen hEd (E p.toNat + 1) p.toNat hpn
    (by omega) n2 (n2 + 1) (by omega) (by omega)).1
  unfold pathF
  rw [hp]
  dsimp only
  rw [if_neg hroot, hstable, hmp, hm]

theorem exists_ready {M : Type} (parents : List Int) (E : Nat → Nat)
    (hEd : ∀ i p, i < parents.length → parents.get? i = some p → p ≠ -1 →
      0 ≤ p ∧ p.toNat < parents.length ∧ E p.toNat < E i)
    (resolved : Int → Option M) (q : List Nat)
    (hqlt : ∀ j ∈ q, j < parents.length)
    (hmemiff : ∀ j, j < parents.length → ((resolved (j : Int) = none) ↔ j ∈ q))
    (hne : q ≠ []) :
    ∃ j ∈ q, ((parents.get? j).elim false
      (fun p => decide (p = -1) || (resolved p).isSome)) = true := by
  obtain ⟨j, hj, hmin⟩ := exists_min_on E hne
  have hjn := hqlt j hj
  obtain ⟨p, hp⟩ := get?_isSome_of_lt hjn
  by_cases hroot : p = -1
  · subst hroot
    exact ⟨j, hj, by rw [hp]; simp [Option.elim]⟩
  · obtain ⟨hp0, hpn, hpd⟩ := hEd j p hjn hp hroot
    have hnotin : p.toNat ∉ q := fun hin => absurd (hmin p.toNat hin) (by omega)
    have hres : ¬ resolved ((p.toNat : Nat) : Int) = none :=
      fun h => hnotin ((hmemiff p.toNat hpn).mp h)
    have hcast : ((p.toNat : Nat) : Int) = p := Int.toNat_of_nonneg hp0
    refine ⟨j, hj, ?_⟩
    rw [hp]
    simp only [Option.elim]
    have hsome : (resolved p).isSome = true := by
      rw [← hcast]
      exact Option.isSome_iff_ne_none.mpr hres
    rw [hsome, Bool.or_true]

theorem resolveLoop_correct {M : Type} (mul : M → M → M) (parents : List Int)
    (locals : List M) (E : Nat → Nat) (hlen : locals.length = parents.length)
    (hEb : ∀ i, i < parents.length → E i < parents.length)
    (hEd : ∀ i p, i < parents.length → parents.get? i = some p → p ≠ -1 →
      0 ≤ p ∧ p.toNat < parents.length ∧ E p.toNat < E i) :
    ∀ (fuel : Nat) (resolved : Int → Option M) (q : List Nat),
      (∀ j ∈ q, j < parents.length) →
      q.Nodup →
      (∀ j, j < parents.length → ((resolved (j : Int) = none) ↔ j ∈ q)) →
      (∀ j, j < parents.length → j ∉ q →
        resolved (j : Int) = boneGlobal mul parents locals j) →
      q.length * (parents.length + 2) +
        q.findIdx (fun j => (parents.get? j).elim false
          (fun p => decide (p = -1) || (resolved p).isSome)) + 1 ≤ fuel →
      ∃ r, resolveLoop mul parents locals fuel resolved q = some r ∧
        ∀ i, i < parents.length → r (i : Int) = boneGlobal mul parents locals i := by
  intro fuel
  induction fuel with
  | zero => intro resolved q _ _ _ _ hfuel; omega
  | succ fuel ih =>
    intro resolved q hqlt hnd hmemiff hcor hfuel
    cases q with
    | nil =>
      refine ⟨resolved, rfl, ?_⟩
      intro i hi
      exact hcor i hi (by simp)
    | cons i q =>
      have hi : i < parents.length := hqlt i (List.mem_cons_self _ _)
      obtain ⟨p, hp⟩ := get?_isSome_of_lt hi
      obtain ⟨m, hm⟩ := get?_isSome_of_lt (show i < locals.length by omega)
      have hq'lt : ∀ j ∈ q, j < parents.length :=
        fun j hj => hqlt j (List.mem_cons_of_mem _ hj)
      have hndq : q.Nodup := (List.nodup_cons.mp hnd).2
      have hinotq : i ∉ q := (List.nodup_cons.mp hnd).1
      have hq'len : q.length ≤ parents.length := nodup_bounded_length_le hndq hq'lt
      have hexp : (q.length + 1) * (parents.length + 2) =
          q.length * (parents.length + 2) + parents.length + 2 := by ring
      simp only [List.length_cons] at hfuel
      by_cases hroot : p = -1
      · subst hroot
        have hglob : boneGlobal mul parents locals i = some m := by
          rw [boneGlobal_root mul parents locals i hi hp, hm]
        have hstep : resolveLoop mul parents locals (fuel + 1) resolved (i :: q) =
            resolveLoop mul parents locals fuel (updMap resolved (i : Int) m) q := by
          simp only [resolveLoop]
          rw [hp, hm]
          dsimp only
          simp only [reduceIte]
        rw [hstep]
        refine ih (updMap resolved (i : Int) m) q hq'lt hndq ?_ ?_ ?_
        · intro j hj
          unfold updMap
          by_cases hji : j = i
          · subst hji
            simp [hinotq]
          · rw [if_neg (by exact_mod_cast hji)]
            rw [hmemiff j hj]
            simp [List.mem_cons, hji]
        · intro j hj hjq
          unfold updMap
          by_cases hji : j = i
          · subst hji
            rw [if_pos rfl, hglob]
          · rw [if_neg (by exact_mod_cast hji)]
            exact hcor j hj (by simp [List.mem_cons, hji, hjq])
        · have hk' : q.findIdx (fun j => (parents.get? j).elim false
              (fun p => decide (p = -1) || ((updMap resolved (i : Int) m) p).isSome)) ≤
              q.length := List.findIdx_le_length _
          omega
      · cases hres : resolved p with
        | some mp =>
          obtain ⟨hp0, hpn, hpd⟩ := hEd i p hi hp hroot
          have hcast : ((p.toNat : Nat) : Int) = p := Int.toNat_of_nonneg hp0
          have hpnotq : p.toNat ∉ q ∧ p.toNat ≠ i := by
            constructor
            · intro hin
              have := (hmemiff p.toNat hpn).mpr (List.mem_cons_of_mem _ hin)
              rw [hcast, hres] at this
              cases this
            · intro heq
              rw [heq] at hpd
              omega
          have hglobp : boneGlobal mul parents locals p.toNat = some mp := by
            have := hcor p.toNat hpn (by
              simp only [List.mem_cons, not_or]
              exact ⟨hpnotq.2, hpnotq.1⟩)
            rw [hcast, hres] at this
            exact this.symm
          have hglob : boneGlobal mul parents locals i = some (mul mp m) :=
            boneGlobal_step mul parents locals E hlen hEb hEd i p hi hp hroot mp m hglobp hm
          have hstep : resolveLoop mul parents locals (fuel + 1) resolved (i :: q) =
              resolveLoop mul parents locals fuel (updMap resolved (i : Int) (mul mp m)) q := by
            simp only [resolveLoop]
            rw [hp, hm]
            dsimp only
            rw [if_neg hroot, hres]
          rw [hstep]
          refine ih (updMap resolved (i : Int) (mul mp m)) q hq'lt hndq ?_ ?_ ?_
          · intro j hj
            unfold updMap
            by_cases hji : j = i
            · subst hji
              simp [hinotq]
            · rw [if_neg (by exact_mod_cast hji)]
              rw [hmemiff j hj]
              simp [List.mem_cons, hji]
          · intro j hj hjq
            unfold updMap
            by_cases hji : j = i
            · subst hji
              rw [if_pos rfl, hglob]
            · rw [if_neg (by exact_mod_cast hji)]
              exact hcor j hj (by simp [List.mem_cons, hji, hjq])
          · have hk' : q.findIdx (fun j => (parents.get? j).elim false
                (fun p => decide (p = -1) || ((updMap resolved (i : Int) (mul mp m)) p).isSome)) ≤
                q.length := List.findIdx_le_length _
            omega
        | none =>
          obtain ⟨hp0, hpn, hpd⟩ := hEd i p hi hp hroot
          have hstep : resolveLoop mul parents locals (fuel + 1) resolved (i :: q) =
              resolveLoop mul parents locals fuel resolved (q ++ [i]) := by
            simp only [resolveLoop]
            rw [hp, hm]
            dsimp only
            rw [if_neg hroot, hres]
          rw [hstep]
          have hperm : (q ++ [i]).Perm (i :: q) := List.perm_append_singleton i q
          have hready_i : ((parents.get? i).elim false
              (fun p2 => decide (p2 = -1) || (resolved p2).isSome)) = false := by
            rw [hp]
            simp only [Option.elim]
            rw [hres]
            simp [hroot]
          have hkcons : (i :: q).findIdx (fun j => (parents.get? j).elim false
              (fun p2 => decide (p2 = -1) || (resolved p2).isSome)) =
              q.findIdx (fun j => (parents.get? j).elim false
                (fun p2 => decide (p2 = -1) || (resolved p2).isSome)) + 1 := by
            rw [List.findIdx_cons]
            rw [hready_i]
            rfl
          have hready_ex := exists_ready parents E hEd resolved (i :: q) hqlt hmemiff
            (by simp)
          obtain ⟨j, hjmem, hjready⟩ := hready_ex
          have hjq : j ∈ q := by
            rcases List.mem_cons.mp hjmem with rfl | h2
            · rw [hjready] at hready_i; cases hready_i
            · exact h2
          have hkq_lt : q.findIdx (fun j => (parents.get? j).elim false
              (fun p2 => decide (p2 = -1) || (resolved p2).isSome)) < q.length :=
            List.findIdx_lt_length_of_exists ⟨j, hjq, hjready⟩
          have happend : (q ++ [i]).findIdx (fun j => (parents.get? j).elim false
              (fun p2 => decide (p2 = -1) || (resolved p2).isSome)) =
              q.findIdx (fun j => (parents.get? j).elim false
                (fun p2 => decide (p2 = -1) || (resolved p2).isSome)) :=
            findIdx_append_left _ q [i] hkq_lt
          refine ih resolved (q ++ [i]) ?_ (hperm.nodup_iff.mpr hnd) ?_ ?_ ?_
          · intro j2 hj2
            exact hqlt j2 (hperm.mem_iff.mp hj2)
          · intro j2 hj2
            rw [hmemiff j2 hj2]
            exact ⟨fun h => hperm.mem_iff.mpr h, fun h => hperm.mem_iff.mp h⟩
          · intro j2 hj2 hj2q
            exact hcor j2 hj2 (fun h => hj2q (hperm.mem_iff.mpr h))
          · rw [happend]
            simp only [List.length_append, List.length_singleton]
            rw [hkcons] at hfuel
            omega

theorem parentOKb_unpack {parents : List Int} {D : Nat → Nat} {i : Nat} {p : Int}
    (h : parentOKb parents D i = true) (hp : parents.get? i = some p) (hroot : p ≠ -1) :
    0 ≤ p ∧ p.toNat < parents.length ∧ D p.toNat < D i := by
  unfold parentOKb at h
  rw [hp] at h
  dsimp only at h
  simp [hroot] at h
  exact ⟨h.1.1, h.1.2, h.2⟩

theorem parentOKb_intro {parents : List Int} {D : Nat → Nat} {i : Nat}
    (h : ∀ p, parents.get? i = some p →
      p = -1 ∨ (0 ≤ p ∧ p.toNat < parents.length ∧ D p.toNat < D i)) :
    parentOKb parents D i = true := by
  unfold parentOKb
  cases hp : parents.get? i with
  | none => rfl
  | some p =>
    dsimp only
    rcases h p hp with rfl | ⟨h1, h2, h3⟩
    · simp
    · simp [h1, h2, h3]

/-- From any strictly parent-decreasing depth measure one obtains one that is
additionally bounded by the number of bones: the rank of a bone among the
depth values that occur below it. -/
theorem resolve_correct_of_parentOKb {M : Type} (mul : M → M → M) (parents : List Int)
    (locals : List M) (D : Nat → Nat) (hlen : locals.length = parents.length)
    (hOK : ∀ i, i < parents.length → parentOKb parents D i = true) :
    ∃ r, resolve_bone_matrices mul parents locals = some r ∧
      ∀ i, i < parents.length → r (i : Int) = boneGlobal mul parents locals i ∧
        (boneGlobal mul parents locals i).isSome = true := by
  -- the bounded rank measure
  have hEb : ∀ i, i < parents.length →
      ((Finset.range parents.length).filter (fun j => D j < D i)).card < parents.length := by
    intro i hi
    have hsub : (Finset.range parents.length).filter (fun j => D j < D i) ⊆
        Finset.range parents.length := Finset.filter_subset _ _
    have : ((Finset.range parents.length).filter (fun j => D j < D i)).card <
        (Finset.range parents.length).card :=
      Finset.card_lt_card ((Finset.ssubset_iff_of_subset hsub).mpr
        ⟨i, Finset.mem_range.mpr hi, by simp⟩)
    simpa using this
  have hEd : ∀ i p, i < parents.length → parents.get? i = some p → p ≠ -1 →
      0 ≤ p ∧ p.toNat < parents.length ∧
      ((Finset.range parents.length).filter (fun j => D j < D p.toNat)).card <
        ((Finset.range parents.length).filter (fun j => D j < D i)).card := by
    intro i p hi hp hroot
    obtain ⟨h1, h2, h3⟩ := parentOKb_unpack (hOK i hi) hp hroot
    refine ⟨h1, h2, ?_⟩
    refine Finset.card_lt_card ((Finset.ssubset_iff_of_subset ?_).mpr
      ⟨p.toNat, ?_, ?_⟩)
    · intro x hx
      simp only [Finset.mem_filter] at hx ⊢
      exact ⟨hx.1, by omega⟩
    · simp only [Finset.mem_filter, Finset.mem_range]
      exact ⟨h2, h3⟩
    · simp
  obtain ⟨r, hr, hcor⟩ := resolveLoop_correct mul parents locals
    (fun i => ((Finset.range parents.length).filter (fun j => D j < D i)).card)
    hlen hEb hEd (resolveFuel parents.length) (fun _ => none) (List.range parents.length)
    (fun j hj => List.mem_range.mp hj) (List.nodup_range _)
    (fun j hj => by simp [List.mem_range, hj])
    (fun j hj hmem => absurd (List.mem_range.mpr hj) hmem)
    (by
      have hk : (List.range parents.length).findIdx (fun j => (parents.get? j).elim false
          (fun p => decide (p = -1) || ((fun _ => (none : Option M)) p).isSome)) ≤
          (List.range parents.length).length := List.findIdx_le_length _
      simp only [List.length_range] at hk ⊢
      have hrf : resolveFuel parents.length =
          parents.length * (parents.length + 2) + 2 * parents.length + 4 := by
        unfold resolveFuel; ring
      omega)
  refine ⟨r, hr, ?_⟩
  intro i hi
  exact ⟨hcor i hi, boneGlobal_isSome mul parents locals
    (fun i => ((Finset.range parents.length).filter (fun j => D j < D i)).card)
    hlen hEb hEd i hi⟩

theorem pathF_relabel {M : Type} (mul : M → M → M) (parents parents2 : List Int)
    (locals locals2 : List M) (σ : Nat → Nat)
    (hpn : ∀ i p, i < parents.length → parents.get? i = some p → p ≠ -1 →
      0 ≤ p ∧ p.toNat < parents.length)
    (hloc : ∀ i, i < parents.length → locals2.get? (σ i) = locals.get? i)
    (hpar : ∀ i p, i < parents.length → parents.get? i = some p →
      parents2.get? (σ i) = some (if p = -1 then -1 else ((σ p.toNat : Nat) : Int))) :
    ∀ (c i : Nat), i < parents.length →
      pathF mul parents2 locals2 c (σ i) = pathF mul parents locals c i := by
  intro c
  induction c with
  | zero => intro i _; rfl
  | succ c ih =>
    intro i hi
    obtain ⟨p, hp⟩ := get?_isSome_of_lt hi
    have hp2 := hpar i p hi hp
    by_cases hroot : p = -1
    · subst hroot
      rw [if_pos rfl] at hp2
      show pathF mul parents2 locals2 (c + 1) (σ i) = pathF mul parents locals (c + 1) i
      unfold pathF
      rw [hp2, hp]
      dsimp only
      simp only [reduceIte]
      exact hloc i hi
    · rw [if_neg hroot] at hp2
      obtain ⟨hp0, hpnlt⟩ := hpn i p hi hp hroot
      have hcast : ((σ p.toNat : Nat) : Int) ≠ -1 := by
        intro h
        have := Int.natCast_nonneg (σ p.toNat)
        omega
      show pathF mul parents2 locals2 (c + 1) (σ i) = pathF mul parents locals (c + 1) i
      unfold pathF
      rw [hp2, hp]
      dsimp only
      rw [if_neg hcast, if_neg hroot, Int.toNat_natCast, ih p.toNat hpnlt, hloc i hi]

/-- Claim C9.  Under the tree hypothesis (every parent reference resolves
inside the list and a depth measure strictly decreases towards parents,
ruling out cycles), the work-queue resolution terminates (never reaching the
stuck marker that models an infinite re-enqueue loop or an out-of-range
index) and assigns every bone the composition of local transforms along the
path from its root (the second conjunct of each bone: the value is defined).
Moreover the outcome is invariant under any relabelling of the bone list -
in particular under list orders that place a child before its parent: for a
permuted input the resolved transform of the renamed bone equals that of
the original bone.  The transform type and its composition are abstract, so
the statement covers the mathutils matrices of the source. -/
theorem bone_resolution_order_independence :
    ∀ (M : Type) (mul : M → M → M) (parents : List Int) (locals : List M) (D : Nat → Nat),
      locals.length = parents.length →
      (∀ i, i < parents.length → parentOKb parents D i = true) →
      (∃ r, resolve_bone_matrices mul parents locals = some r ∧
        ∀ i, i < parents.length → r (i : Int) = boneGlobal mul parents locals i ∧
          (boneGlobal mul parents locals i).isSome = true) ∧
      (∀ (σ τ : Nat → Nat) (parents2 : List Int) (locals2 : List M),
        parents2.length = parents.length → locals2.length = parents.length →
        (∀ i, i < parents.length → σ i < parents.length ∧ τ (σ i) = i) →
        (∀ j, j < parents.length → τ j < parents.length ∧ σ (τ j) = j) →
        (∀ i, i < parents.length → locals2.get? (σ i) = locals.get? i) →
        (∀ i p, i < parents.length → parents.get? i = some p →
          parents2.get? (σ i) = some (if p = -1 then -1 else ((σ p.toNat : Nat) : Int))) →
        ∃ r r2, resolve_bone_matrices mul parents locals = some r ∧
          resolve_bone_matrices mul parents2 locals2 = some r2 ∧
          ∀ i, i < parents.length → r2 ((σ i : Nat) : Int) = r (i : Int)) := by
  intro M mul parents locals D hlen hOK
  constructor
  · exact resolve_correct_of_parentOKb mul parents locals D hlen hOK
  · intro σ τ parents2 locals2 hlen2 hlenl2 hσ hτ hloc hpar
    have hOK2 : ∀ j, j < parents2.length →
        parentOKb parents2 (fun j => D (τ j)) j = true := by
      intro j hj
      rw [hlen2] at hj
      obtain ⟨hτlt, hστ⟩ := hτ j hj
      apply parentOKb_intro
      intro p2 hp2
      obtain ⟨p, hp⟩ := get?_isSome_of_lt hτlt
      have h2 := hpar (τ j) p hτlt hp
      rw [hστ, hp2] at h2
      have hp2eq : p2 = (if p = -1 then -1 else ((σ p.toNat : Nat) : Int)) :=
        Option.some.inj h2
      by_cases hroot : p = -1
      · left
        rw [hp2eq, if_pos hroot]
      · right
        obtain ⟨hp0, hpnlt, hpd⟩ := parentOKb_unpack (hOK (τ j) hτlt) hp hroot
        obtain ⟨hσlt, hτσ⟩ := hσ p.toNat hpnlt
        rw [hp2eq, if_neg hroot]
        refine ⟨Int.natCast_nonneg _, ?_, ?_⟩
        · rw [Int.toNat_natCast, hlen2]
          exact hσlt
        · rw [Int.toNat_natCast, hτσ]
          exact hpd
    obtain ⟨r, hr, hcor⟩ := resolve_correct_of_parentOKb mul parents locals D hlen hOK
    obtain ⟨r2, hr2, hcor2⟩ := resolve_correct_of_parentOKb mul parents2 locals2
      (fun j => D (τ j)) (by rw [hlen2, hlenl2]) hOK2
    refine ⟨r, r2, hr, hr2, ?_⟩
    intro i hi
    obtain ⟨hσi, _⟩ := hσ i hi
    rw [(hcor2 (σ i) (by rw [hlen2]; exact hσi)).1, (hcor i hi).1]
    unfold boneGlobal
    rw [hlen2]
    exact pathF_relabel mul parents parents2 locals locals2 σ
      (fun i2 p2 hi2 hp2 hroot2 =>
        ⟨(parentOKb_unpack (hOK i2 hi2) hp2 hroot2).1,
         (parentOKb_unpack (hOK i2 hi2) hp2 hroot2).2.1⟩)
      hloc hpar parents.length i hi

/-- Witness for C9: two bones with the child declared before its parent
(bone 0 has parent 1, bone 1 is the root); resolution succeeds and computes
the composed path transforms. -/
theorem bone_resolution_order_independence_witness :
    ∃ r, resolve_bone_matrices (fun (a b : List Nat) => a ++ b) [1, -1] [[10], [20]] = some r ∧
      ∀ i, i < ([1, -1] : List Int).length →
        r (i : Int) = boneGlobal (fun (a b : List Nat) => a ++ b) [1, -1] [[10], [20]] i ∧
        (boneGlobal (fun (a b : List Nat) => a ++ b) [1, -1] [[10], [20]] i).isSome = true :=
  (bone_resolution_order_independence (List Nat) (fun a b => a ++ b) [1, -1] [[10], [20]]
    (fun i => if i = 0 then 1 else 0) rfl (by decide)).1
